import Mathlib

/-! # GRAEngine resource registry (`src/resource/resources.h`)

A shallow embedding of `GRAE::Resources`, `GRAE::PRIVATE::Handler<T>` and
`GRAE::PRIVATE::DefaultResourceImpl<T>`.

* A `std::unordered_map` is an association list with unique keys
  (`count`, `operator[]` and assignment through `operator[]`).
* An object created by `new` gets a fresh identity (`ObjId`); a pointer is
  `Option ObjId`, `none` being `nullptr`.
* The resource constructors `T(id, res, success, reason)` and `T(res)` live
  outside the header; they are an oracle (`Env`) that does not call back
  into the registry.
* The ambient logger and the constructor/destructor calls are recorded, in
  order, in `World.trace`.
-/

namespace GRAE

/-! ## unordered_map -/

/-- The value stored under key `k`, if the map has one (`count(k) != 0`). -/
def find? {κ ν : Type} [DecidableEq κ] (k : κ) : List (κ × ν) → Option ν
  | [] => none
  | (a, v) :: m => if a = k then some v else find? k m

/-- Assignment `m[k] = v`: overwrite the entry of `k`, or add one. -/
def assign {κ ν : Type} [DecidableEq κ] (k : κ) (v : ν) : List (κ × ν) → List (κ × ν)
  | [] => [(k, v)]
  | (a, x) :: m => if a = k then (k, v) :: m else (a, x) :: assign k v m

/-! ## Identities, pointers, log -/

/-- Runtime type identity: `std::type_index(typeid(T))`. -/
abbrev TypeId := Nat

/-- Identity of an object created by `new`. -/
abbrev ObjId := Nat

/-- A `T *`; `none` is `nullptr`. -/
abbrev Ptr := Option ObjId

/-- The channels of the logger used by the registry. -/
inductive Level
  | debug | verbose | info | err
  deriving DecidableEq, Repr

/-- An observable effect of a registry call. A log message is the list of
the operands streamed into the channel with `<<`. -/
inductive Event
  | log (lvl : Level) (parts : List String)
  | construct (T : TypeId) (id : String) (obj : ObjId) (success : Bool)
  | constructDefault (T : TypeId) (obj : ObjId)
  | destroy (obj : ObjId)
  deriving DecidableEq, Repr

/-- Everything around the registry: the allocator and the event trace. -/
structure World where
  next : ObjId
  trace : List Event
  deriving DecidableEq, Repr

/-- What the header does not define: the mangled type names and the
resource constructors. `construct n T id` is the outcome of
`T(id, res, success, reason)` when `n` objects have been allocated so far
(so that the outcome may change over time): the final value of `success`
and, if the constructor wrote it, the final value of `reason`. -/
structure Env where
  typeName : TypeId → String
  construct : Nat → TypeId → String → Bool × Option String

namespace World

/-- The state of the world before the registry is created. -/
def init : World := ⟨0, []⟩

/-- `log-><lvl> << p₁ << p₂ ...` -/
def log (w : World) (lvl : Level) (parts : List String) : World :=
  { w with trace := w.trace ++ [Event.log lvl parts] }

/-- Record an event and allocate one object. -/
def alloc (w : World) (e : Event) : World :=
  ⟨w.next + 1, w.trace ++ [e]⟩

/-- Record an event. -/
def emit (w : World) (e : Event) : World :=
  { w with trace := w.trace ++ [e] }

/-- The calls of the id-taking constructor, in order. -/
def ctorCalls (w : World) : List (TypeId × String × ObjId × Bool) :=
  w.trace.filterMap fun e =>
    match e with
    | Event.construct T id obj ok => some (T, id, obj, ok)
    | _ => none

/-- The calls of the default constructor `T(res)`, in order. -/
def defaultCalls (w : World) : List (TypeId × ObjId) :=
  w.trace.filterMap fun e =>
    match e with
    | Event.constructDefault T obj => some (T, obj)
    | _ => none

/-- The messages logged on the error channel, in order. -/
def errors (w : World) : List (List String) :=
  w.trace.filterMap fun e =>
    match e with
    | Event.log Level.err parts => some parts
    | _ => none

end World

/-! ## Handler<T> -/

/-- `PRIVATE::Handler<T>`: the cache of one resource type. -/
structure Handler where
  resources : List (String × Ptr)
  directory : String
  deriving DecidableEq, Repr

namespace Handler

/-- `explicit Handler(std::string dir) : directory(dir) {}` -/
def new (dir : String) : Handler := ⟨[], dir⟩

/-- `T *&operator[](std::string id) { return resources[id]; }`: the entry
of `id`, default-inserted as `nullptr` when the map has none. -/
def index (h : Handler) (id : String) : Handler × Ptr :=
  match find? id h.resources with
  | some p => (h, p)
  | none => ({ h with resources := assign id none h.resources }, none)

/-- Assignment through the reference returned by `operator[]`:
`handler[id] = p`. -/
def store (h : Handler) (id : String) (p : Ptr) : Handler :=
  { (h.index id).1 with resources := assign id p (h.index id).1.resources }

/-- `return (bool) resources.count(id);` -/
def resourceExists (h : Handler) (id : String) : Bool :=
  (find? id h.resources).isSome

/-- `return directory;` -/
def getDir (h : Handler) : String := h.directory

end Handler

/-! ## Resources -/

/-- `class Resources`. An entry of `defaults` is the `resource` field of
the `DefaultResourceImpl<T>` it points to. -/
structure Resources where
  handlers : List (TypeId × Handler)
  defaults : List (TypeId × ObjId)
  rootDir : String
  deriving DecidableEq, Repr

/-- The result of a call: the returned pointer, the registry and the world
afterwards. -/
abbrev Result := Ptr × Resources × World

namespace Resources

/-- `explicit Resources(std::string root) : rootDir(root)` -/
def new (root : String) (w : World) : Resources × World :=
  (⟨[], [], root⟩, w.log Level.info ["Initialized Resources at \"", root, "\""])

/-- `Resources::getDefault<T>()` -/
def getDefault (env : Env) (T : TypeId) (s : Resources) (w : World) : Result :=
  match find? T s.defaults with
  | none =>
    let w := w.log Level.debug ["Loading default Resource<", env.typeName T, ">"]
    let obj := w.next
    let w := w.alloc (Event.constructDefault T obj)
    (some obj, { s with defaults := assign T obj s.defaults }, w)
  | some obj => (some obj, s, w)

/-- `Resources::getResource<T>(id)` -/
def getResource (env : Env) (T : TypeId) (id : String) (s : Resources) (w : World) : Result :=
  let w := w.log Level.verbose ["Resource<", env.typeName T, "> requested: \"", id, "\""]
  match find? T s.handlers with
  | none =>
    let w := w.log Level.err ["Resource type not initialized!"]
    let w := w.log Level.verbose [env.typeName T]
    getDefault env T s w
  | some h =>
    if !h.resourceExists id then
      let w := w.log Level.info ["Loading Resource<", env.typeName T, ">: \"", id, "\""]
      let out := env.construct w.next T id
      let success := out.1
      let reason := out.2.getD "reason unknown"
      let resource := w.next
      let w := w.alloc (Event.construct T id resource success)
      if !success then
        let w := w.log Level.err ["Failed to load <", env.typeName T, ">: ", id, " - ", reason]
        let w := w.emit (Event.destroy resource)
        getDefault env T s w
      else
        let h := h.store id (some resource)
        let w := w.log Level.debug
          ["Successfully Loaded Resource<", env.typeName T, ">: \"", id, "\""]
        ((h.index id).2, { s with handlers := assign T (h.index id).1 s.handlers }, w)
    else
      ((h.index id).2, { s with handlers := assign T (h.index id).1 s.handlers }, w)

/-- `Resources::initResourceType<T>(dir)` -/
def initResourceType (env : Env) (T : TypeId) (dir : String) (s : Resources) (w : World) :
    Resources × World :=
  let w := w.log Level.debug ["Initializing Resource Type <", env.typeName T, ">"]
  ({ s with handlers := assign T (Handler.new dir) s.handlers }, w)

/-- The argument `get` passes to `getResource`:
`(rootDir.length() > 0 ? rootDir + "/" : "") + (dir.length() > 0 ? dir + "/" : "") + id`. -/
def resolve (rootDir dir id : String) : String :=
  (if rootDir.length > 0 then rootDir ++ "/" else "") ++
    (if dir.length > 0 then dir ++ "/" else "") ++ id

/-- `Resources::get<T>(id)`. With a non-empty id the handler is fetched with
`handlers[typeid(T)]` and dereferenced for `getDir()` before `getResource`
runs; for a type without a handler `operator[]` yields `nullptr`, and the
call has no defined result: `none`. -/
def get (env : Env) (T : TypeId) (id : String) (s : Resources) (w : World) : Option Result :=
  if id.length > 0 then
    match find? T s.handlers with
    | none => none
    | some h => some (getResource env T (resolve s.rootDir h.getDir id) s w)
  else
    some (getDefault env T s w)

/-- `Resources::getFromRoot<T>(id)` -/
def getFromRoot (env : Env) (T : TypeId) (id : String) (s : Resources) (w : World) : Result :=
  if id.length > 0 then
    getResource env T id s w
  else
    getDefault env T s w

/-! The worlds along the paths of `getResource`, named for the lemmas below. -/

/-- The world after the `verbose` message that opens `getResource`. -/
def requested (env : Env) (T : TypeId) (id : String) (w : World) : World :=
  w.log Level.verbose ["Resource<", env.typeName T, "> requested: \"", id, "\""]

/-- The world after a failed construction in `getResource`. -/
def failed (env : Env) (T : TypeId) (id : String) (w : World) : World :=
  ((((requested env T id w).log Level.info
      ["Loading Resource<", env.typeName T, ">: \"", id, "\""]).alloc
      (Event.construct T id w.next false)).log Level.err
      ["Failed to load <", env.typeName T, ">: ", id, " - ",
        (env.construct w.next T id).2.getD "reason unknown"]).emit (Event.destroy w.next)

/-- The world after a successful construction in `getResource`. -/
def loaded (env : Env) (T : TypeId) (id : String) (w : World) : World :=
  (((requested env T id w).log Level.info
      ["Loading Resource<", env.typeName T, ">: \"", id, "\""]).alloc
      (Event.construct T id w.next true)).log Level.debug
      ["Successfully Loaded Resource<", env.typeName T, ">: \"", id, "\""]

/-- The world after the messages of `getResource` on an unregistered type. -/
def missing (env : Env) (T : TypeId) (id : String) (w : World) : World :=
  ((requested env T id w).log Level.err ["Resource type not initialized!"]).log
    Level.verbose [env.typeName T]

end Resources

/-! ## Sequences of public calls -/

/-- A call of the public interface of `Resources`. -/
inductive Op
  | initResourceType (T : TypeId) (dir : String)
  | get (T : TypeId) (id : String)
  | getFromRoot (T : TypeId) (id : String)
  deriving DecidableEq, Repr

/-- One public call with its returned pointer (`none` for the `void`
`initResourceType`); no result at all when the call has no defined one. -/
def call (env : Env) (op : Op) (st : Resources × World) : Option Result :=
  match op with
  | Op.initResourceType T dir =>
    some (none, Resources.initResourceType env T dir st.1 st.2)
  | Op.get T id => Resources.get env T id st.1 st.2
  | Op.getFromRoot T id => some (Resources.getFromRoot env T id st.1 st.2)

/-- The state after one public call. -/
def step (env : Env) (op : Op) (st : Resources × World) : Option (Resources × World) :=
  (call env op st).map Prod.snd

/-- The calls of `ops`, from left to right. -/
def run (env : Env) : List Op → Resources × World → Option (Resources × World)
  | [], st => some st
  | op :: ops, st => (step env op st).bind (run env ops)

/-- A state of a registry created by `Resources(root)` and used only through
its public interface. -/
def Reachable (env : Env) (st : Resources × World) : Prop :=
  ∃ root ops, run env ops (Resources.new root World.init) = some st

/-! ## Test environments -/

/-- Every construction succeeds. -/
def envOk : Env := ⟨fun _ => "T", fun _ _ _ => (true, none)⟩

/-- Every construction fails, with reason `"missing"`. -/
def envFail : Env := ⟨fun _ => "T", fun _ _ _ => (false, some "missing")⟩

/-- Constructions fail until two objects have been allocated and succeed
afterwards. -/
def envLate : Env := ⟨fun _ => "T", fun n _ _ => (decide (2 ≤ n), none)⟩

/-- A registry at root `"r"` in which type `0` is registered with
subdirectory `"d"`. -/
def registered : Resources × World :=
  Resources.initResourceType envOk 0 "d" (Resources.new "r" World.init).1
    (Resources.new "r" World.init).2

/-- The registry `registered` after the successful load of `get<0>("a")`. -/
def afterLoad : Resources × World :=
  (Resources.getResource envOk 0 "r/d/a" registered.1 registered.2).2

/-- The registry `afterLoad` after `initResourceType<0>("d")` is called a
second time. -/
def reRegistered : Resources × World :=
  Resources.initResourceType envOk 0 "d" afterLoad.1 afterLoad.2

/-- The registry `afterLoad` after `initResourceType<1>("e")`,
`getFromRoot<1>("b")` and `get<0>("")`. -/
def afterOthers : Resources × World :=
  (run envOk [Op.initResourceType 1 "e", Op.getFromRoot 1 "b", Op.get 0 ""] afterLoad).getD
    afterLoad

/-- The registry `afterLoad` after `get<0>("")`. -/
def afterDefault : Resources × World :=
  (run envOk [Op.get 0 ""] afterLoad).getD afterLoad

/-! ## The specification's wording of path resolution -/

/-- Path resolution as the specification words it: the root directory, the
type subdirectory and the id, joined by `"/"`, where an empty root or
subdirectory contributes neither a segment nor a separator. -/
def joinSegments (root dir id : String) : String :=
  String.intercalate "/" (([root, dir].filter fun seg => seg ≠ "") ++ [id])

/-! ## Requests for a default instance -/

/-- The objects created by the default constructor of `T`, in order. -/
def World.defaultCallsOf (w : World) (T : TypeId) : List ObjId :=
  w.defaultCalls.filterMap fun c => if c.1 = T then some c.2 else none

/-- Whether `getResource<T>(key)` falls back to the default of `T`: the type
is unregistered, or the key is not cached and its construction fails. -/
def resourceNeedsDefault (env : Env) (T : TypeId) (key : String) (st : Resources × World) :
    Bool :=
  match find? T st.1.handlers with
  | none => true
  | some h => !h.resourceExists key && !(env.construct st.2.next T key).1

/-- Whether the call `op`, made in state `st`, is a request that needs the
default instance of `T`: a lookup of `T` with an empty id, on an
unregistered type, or whose construction fails. -/
def needsDefault (env : Env) (T : TypeId) (op : Op) (st : Resources × World) : Bool :=
  match op with
  | Op.initResourceType _ _ => false
  | Op.get U id =>
    decide (U = T) &&
      (decide (id = "") ||
        match find? T st.1.handlers with
        | none => true
        | some h => resourceNeedsDefault env T (Resources.resolve st.1.rootDir h.directory id) st)
  | Op.getFromRoot U id =>
    decide (U = T) && (decide (id = "") || resourceNeedsDefault env T id st)

/-- Whether some call of the sequence `ops`, started in `st`, needs the
default instance of `T`. -/
def everNeeded (env : Env) (T : TypeId) : List Op → Resources × World → Bool
  | [], _ => false
  | op :: ops, st =>
    needsDefault env T op st ||
      match step env op st with
      | some st1 => everNeeded env T ops st1
      | none => false

/-! ## What a load leaves on the error channel -/

/-- The message a failed load of `key` puts on the error channel: the text
`"Failed to load <"`, the type name, `">: "`, the key, `" - "` and the reason
the constructor left, `"reason unknown"` if it wrote none. -/
def failureMessage (env : Env) (T : TypeId) (key : String) (w : World) : List String :=
  ["Failed to load <", env.typeName T, ">: ", key, " - ",
    (env.construct w.next T key).2.getD "reason unknown"]

/-- The outcome `(r, s1, w1)` of a load of the uncached `key` of type `T`
started in world `w`. If the constructor reports failure: `r` is the default
of `T`, exactly the failure message was appended to the error channel, and
in the trace that message follows the constructor call and precedes the
construction of the default, if the default is constructed in this call. If
it reports success: `r` is the new instance and nothing was appended to the
error channel. -/
def LoadLogged (env : Env) (T : TypeId) (key : String) (w : World) (r : Ptr) (s1 : Resources)
    (w1 : World) : Prop :=
  ((env.construct w.next T key).1 = false →
      ∃ d, r = some d ∧ find? T s1.defaults = some d ∧
        w1.errors = w.errors ++ [failureMessage env T key w] ∧
        ∃ post, w1.trace =
          w.trace ++
            [Event.log Level.verbose ["Resource<", env.typeName T, "> requested: \"", key, "\""],
              Event.log Level.info ["Loading Resource<", env.typeName T, ">: \"", key, "\""],
              Event.construct T key w.next false,
              Event.log Level.err (failureMessage env T key w),
              Event.destroy w.next] ++ post ∧
          (post = [] ∨
            post = [Event.log Level.debug ["Loading default Resource<", env.typeName T, ">"],
              Event.constructDefault T d])) ∧
    ((env.construct w.next T key).1 = true → r = some w.next ∧ w1.errors = w.errors)

/-! ## What a call on another type leaves alone -/

/-- What the registry holds for type `U` is the same in `s1` as in `s`: its
handler (registration, subdirectory and every cache entry), its default
instance, and the root directory. -/
def Untouched (U : TypeId) (s s1 : Resources) : Prop :=
  find? U s1.handlers = find? U s.handlers ∧ find? U s1.defaults = find? U s.defaults ∧
    s1.rootDir = s.rootDir

/-! ## Handler<T> on its own -/

/-- A use of the public interface of `Handler<T>`: the raw access `h[id]`,
or the assignment `h[id] = p` of a non-null pointer through it. -/
inductive HandlerOp
  | access (id : String)
  | store (id : String) (obj : ObjId)
  deriving DecidableEq, Repr

/-- The handler after one use. -/
def Handler.apply (h : Handler) : HandlerOp → Handler
  | HandlerOp.access id => (h.index id).1
  | HandlerOp.store id obj => h.store id (some obj)

/-- The handler after the uses `ops`, from left to right. -/
def Handler.run (h : Handler) (ops : List HandlerOp) : Handler :=
  ops.foldl Handler.apply h

/-- Every raw access in `ops`, started on `h`, is made on an id that is
present at that moment. -/
def Handler.accessesPresent : Handler → List HandlerOp → Bool
  | _, [] => true
  | h, HandlerOp.access id :: ops =>
    h.resourceExists id && Handler.accessesPresent (h.apply (HandlerOp.access id)) ops
  | h, HandlerOp.store id obj :: ops =>
    Handler.accessesPresent (h.apply (HandlerOp.store id obj)) ops

/-! ## Gen (`src/resource/gen.h`)

The header declares the class and its `PRIVATE::Value` entries; the bodies
of the member functions are not part of it. The data model below follows the
header, the member functions follow the specification. -/

/-- `class Gen`: the map `values` from keys to `PRIVATE::Value`, as the list
of its entries in insertion order, keys unique. `leaf key value rest` is an
entry whose `subvalues` pointer is null, `node key value subvalues rest` an
entry that owns the tree `subvalues`. -/
inductive Gen
  | nil
  | leaf (key value : String) (rest : Gen)
  | node (key value : String) (subvalues : Gen) (rest : Gen)
  deriving DecidableEq, Repr

namespace Gen

/-- An entry of `values`: a `PRIVATE::Value` under its key, in front of
`rest`. -/
def entry (key value : String) (subvalues : Option Gen) (rest : Gen) : Gen :=
  match subvalues with
  | none => leaf key value rest
  | some sub => node key value sub rest

/-- The `PRIVATE::Value` stored under `id`: its `value` and its `subvalues`
(`none` for a null pointer), if `values` has the key. -/
def find : Gen → String → Option (String × Option Gen)
  | nil, _ => none
  | leaf k v rest, id => if k = id then some (v, none) else rest.find id
  | node k v sub rest, id => if k = id then some (v, some sub) else rest.find id

/-- The assignment `values[key] = Value{value, subvalues}`: the entry of
`key` is overwritten in place, or added at the end. -/
def set : Gen → String → String → Option Gen → Gen
  | nil, key, value, sub => entry key value sub nil
  | leaf k v rest, key, value, sub =>
    if k = key then entry key value sub rest else leaf k v (rest.set key value sub)
  | node k v s rest, key, value, sub =>
    if k = key then entry key value sub rest else node k v s (rest.set key value sub)

/-- The entries of `g` followed by the entries of `g2`. -/
def append : Gen → Gen → Gen
  | nil, g2 => g2
  | leaf k v rest, g2 => leaf k v (rest.append g2)
  | node k v s rest, g2 => node k v s (rest.append g2)

/-! ### Typed getters -/

/-- Modelled from the spec: `getPresent(id)`, whether the tree has the key.
The body is not in the header; a reader does not change the tree, so every
getter returns its result together with the tree as it leaves it. -/
def getPresent (g : Gen) (id : String) : Bool × Gen :=
  ((g.find id).isSome, g)

/-- Modelled from the spec: `getString(id, fallback)`, missing from the
header. The payload is returned verbatim, the fallback only when the key is
absent. -/
def getString (g : Gen) (id : String) (fallback : String) : String × Gen :=
  (match g.find id with
    | none => fallback
    | some v => v.1, g)

/-- Modelled from the spec: `getInt(id, fallback)`, missing from the header.
The payload is an integer iff, trimmed, it is an optionally signed sequence
of decimal digits; otherwise, and for an absent key, the fallback is
returned. -/
def getInt (g : Gen) (id : String) (fallback : Int) : Int × Gen :=
  (match g.find id with
    | none => fallback
    | some v => (v.1.trim.toInt?).getD fallback, g)

/-- Modelled from the spec: `getDouble(id, fallback)`, missing from the
header. `parseDouble` stands for the reading of a floating literal into the
type `D` of doubles; the fallback is returned for an absent key and for a
payload that is no literal. -/
def getDouble {D : Type} (parseDouble : String → Option D) (g : Gen) (id : String)
    (fallback : D) : D × Gen :=
  (match g.find id with
    | none => fallback
    | some v => (parseDouble v.1).getD fallback, g)

/-- Modelled from the spec: `getBool(id, fallback)`, missing from the
header. Case-insensitively `true` and `1` read as true, `false` and `0` as
false, a tag (empty value, no subvalues) as true; anything else, and an
absent key, gives the fallback. -/
def getBool (g : Gen) (id : String) (fallback : Bool) : Bool × Gen :=
  (match g.find id with
    | none => fallback
    | some (v, sub) =>
      if v.toLower = "true" ∨ v = "1" then true
      else if v.toLower = "false" ∨ v = "0" then false
      else if v = "" ∧ sub = none then true
      else fallback, g)

/-- Modelled from the spec: `getSubValues(id)`, missing from the header. The
nested tree if the key is present and owns one, else null (`none`); no
subtree is made up. -/
def getSubValues (g : Gen) (id : String) : Option Gen × Gen :=
  (match g.find id with
    | none => none
    | some v => v.2, g)

/-! ### Text format -/

/-- Modelled from the spec: whitespace around a token is not part of it. -/
def trim (l : List Char) : List Char :=
  (l.dropWhile Char.isWhitespace).rdropWhile Char.isWhitespace

/-- What one line of text says. -/
inductive Line
  | blank
  | close
  | entry (key value : String) (opens : Bool)
  deriving DecidableEq, Repr

/-- Modelled from the spec: the key and the value of an entry, `KEY` or
`KEY ":" VALUE`. The value is the text after the first colon, up to the end
of the line. -/
def splitEntry (body : List Char) : String × String :=
  (String.mk (trim (body.takeWhile fun c => c != ':')),
    String.mk (trim ((body.dropWhile fun c => c != ':').drop 1)))

/-- Modelled from the spec: the reading of one line. A blank line is
skipped, `}` closes a nested tree, a line ending in `{` is an entry that
opens one, any other line is an entry without a nested tree. -/
def parseLine (l : List Char) : Line :=
  if trim l = [] then Line.blank
  else if trim l = ['}'] then Line.close
  else if (trim l).getLast? = some '{' then
    Line.entry (splitEntry (trim (trim l).dropLast)).1 (splitEntry (trim (trim l).dropLast)).2
      true
  else Line.entry (splitEntry (trim l)).1 (splitEntry (trim l)).2 false

/-- The lines of a text: the pieces between its newline characters. -/
def splitLines : List Char → List (List Char)
  | [] => [[]]
  | c :: cs =>
    if c = '\n' then [] :: splitLines cs
    else
      match splitLines cs with
      | [] => [[c]]
      | l :: ls => (c :: l) :: ls

/-- Modelled from the spec: the parser of `consume`, line by line. `cur` is
the tree being filled; `stack` holds, for every nested tree that is open,
the tree around it and the key and value of the entry that owns it. A `}`
without an open tree and an open tree at the end of the text are the parse
failures (unbalanced braces): no tree results. -/
def parseLines : List (List Char) → Gen → List (Gen × String × String) → Option Gen
  | [], cur, [] => some cur
  | [], _, _ :: _ => none
  | l :: ls, cur, stack =>
    match parseLine l with
    | Line.blank => parseLines ls cur stack
    | Line.entry k v false => parseLines ls (cur.set k v none) stack
    | Line.entry k v true => parseLines ls nil ((cur, k, v) :: stack)
    | Line.close =>
      match stack with
      | [] => none
      | (parent, k, v) :: stack => parseLines ls (parent.set k v (some cur)) stack

/-- Modelled from the spec: `consume(s)`, missing from the header. The
entries read from the text `s` are added to the tree; a parse failure is
reported (`none`) instead of a partial tree. -/
def consume (g : Gen) (s : String) : Option Gen :=
  parseLines (splitLines s.data) g []

/-- The line of an entry: `KEY ":" VALUE`, followed by `{` when the entry
owns a nested tree. -/
def entryLine (key value : String) (opens : Bool) : List Char :=
  key.data ++ ':' :: value.data ++ (if opens then ['{'] else [])

/-- Modelled from the spec: the lines `toString` writes, one entry per line
in the `keyvalue` and `nested` forms of the grammar, a nested tree between
the line of its entry and a line `}`. -/
def lines : Gen → List (List Char)
  | nil => []
  | leaf k v rest => entryLine k v false :: lines rest
  | node k v sub rest => entryLine k v true :: (lines sub ++ ['}'] :: lines rest)

/-- The text made of the given lines, each ended by a newline. -/
def unlines : List (List Char) → List Char
  | [] => []
  | l :: ls => l ++ '\n' :: unlines ls

/-- Modelled from the spec: `toString()`, missing from the header: the
serialization of the tree in the text format. -/
def toString (g : Gen) : String :=
  String.mk (unlines (lines g))

/-- Modelled from the spec: `getKeys()`, missing from the header: the keys of
the tree. -/
def getKeys : Gen → List String
  | nil => []
  | leaf k _ rest => k :: rest.getKeys
  | node k _ _ rest => k :: rest.getKeys

/-- A key as the parser reads it: no colon, no newline, no whitespace at
either end. -/
def KeyOk (k : String) : Prop :=
  ':' ∉ k.data ∧ '\n' ∉ k.data ∧ trim k.data = k.data

/-- A value as the parser reads it: no newline, no whitespace at either
end. -/
def ValueOk (v : String) : Prop :=
  '\n' ∉ v.data ∧ trim v.data = v.data

/-- A tree as the parser builds it: keys and values are as the parser reads
them, the value of an entry without a nested tree does not end in `{`, and
the keys of a tree are distinct. -/
def WellFormed : Gen → Prop
  | nil => True
  | leaf k v rest =>
    KeyOk k ∧ ValueOk v ∧ v.data.getLast? ≠ some '{' ∧ k ∉ rest.getKeys ∧ rest.WellFormed
  | node k v sub rest =>
    KeyOk k ∧ ValueOk v ∧ sub.WellFormed ∧ k ∉ rest.getKeys ∧ rest.WellFormed

end Gen

/-! ## Lemmas on maps -/

section Maps

variable {κ ν : Type} [DecidableEq κ]

theorem find?_assign_self (k : κ) (v : ν) (m : List (κ × ν)) :
    find? k (assign k v m) = some v := by
  induction m with
  | nil => simp [assign, find?]
  | cons e m ih =>
    obtain ⟨a, x⟩ := e
    by_cases h : a = k <;> simp [assign, find?, h, ih]

theorem find?_assign_ne {k k' : κ} (h : k ≠ k') (v : ν) (m : List (κ × ν)) :
    find? k' (assign k v m) = find? k' m := by
  induction m with
  | nil => simp [assign, find?, h]
  | cons e m ih =>
    obtain ⟨a, x⟩ := e
    by_cases hk : a = k
    · subst hk
      simp [assign, find?, h]
    · by_cases hk' : a = k'
      · subst hk'
        simp [assign, find?, hk]
      · simp [assign, find?, hk, hk', ih]

theorem assign_of_find? {k : κ} {v : ν} {m : List (κ × ν)} (h : find? k m = some v) :
    assign k v m = m := by
  induction m with
  | nil => simp [find?] at h
  | cons e m ih =>
    obtain ⟨a, x⟩ := e
    by_cases hk : a = k
    · subst hk
      simp [find?] at h
      simp [assign, h]
    · simp [find?, hk] at h
      simp [assign, hk, ih h]

theorem assign_assign (k : κ) (v v' : ν) (m : List (κ × ν)) :
    assign k v' (assign k v m) = assign k v' m := by
  induction m with
  | nil => simp [assign]
  | cons e m ih =>
    obtain ⟨a, x⟩ := e
    by_cases hk : a = k <;> simp [assign, hk, ih]

end Maps

/-! ## Lemmas on the world -/

namespace World

@[simp] theorem log_next (w : World) (l : Level) (ps : List String) : (w.log l ps).next = w.next :=
  rfl

@[simp] theorem emit_next (w : World) (e : Event) : (w.emit e).next = w.next := rfl

@[simp] theorem alloc_next (w : World) (e : Event) : (w.alloc e).next = w.next + 1 := rfl

@[simp] theorem log_ctorCalls (w : World) (l : Level) (ps : List String) :
    (w.log l ps).ctorCalls = w.ctorCalls := by
  simp [log, ctorCalls, List.filterMap_append]

@[simp] theorem log_defaultCalls (w : World) (l : Level) (ps : List String) :
    (w.log l ps).defaultCalls = w.defaultCalls := by
  simp [log, defaultCalls, List.filterMap_append]

@[simp] theorem emit_destroy_ctorCalls (w : World) (o : ObjId) :
    (w.emit (Event.destroy o)).ctorCalls = w.ctorCalls := by
  simp [emit, ctorCalls, List.filterMap_append]

@[simp] theorem emit_destroy_defaultCalls (w : World) (o : ObjId) :
    (w.emit (Event.destroy o)).defaultCalls = w.defaultCalls := by
  simp [emit, defaultCalls, List.filterMap_append]

@[simp] theorem alloc_construct_ctorCalls (w : World) (T : TypeId) (id : String) (o : ObjId)
    (b : Bool) :
    (w.alloc (Event.construct T id o b)).ctorCalls = w.ctorCalls ++ [(T, id, o, b)] := by
  simp [alloc, ctorCalls, List.filterMap_append]

@[simp] theorem alloc_construct_defaultCalls (w : World) (T : TypeId) (id : String) (o : ObjId)
    (b : Bool) :
    (w.alloc (Event.construct T id o b)).defaultCalls = w.defaultCalls := by
  simp [alloc, defaultCalls, List.filterMap_append]

@[simp] theorem alloc_default_ctorCalls (w : World) (T : TypeId) (o : ObjId) :
    (w.alloc (Event.constructDefault T o)).ctorCalls = w.ctorCalls := by
  simp [alloc, ctorCalls, List.filterMap_append]

@[simp] theorem alloc_default_defaultCalls (w : World) (T : TypeId) (o : ObjId) :
    (w.alloc (Event.constructDefault T o)).defaultCalls = w.defaultCalls ++ [(T, o)] := by
  simp [alloc, defaultCalls, List.filterMap_append]

end World

/-! ## Lemmas on Handler -/

namespace Handler

theorem index_of_find? {h : Handler} {id : String} {p : Ptr}
    (hp : find? id h.resources = some p) : h.index id = (h, p) := by
  simp [index, hp]

theorem store_of_absent {h : Handler} {id : String} (hp : find? id h.resources = none)
    (p : Ptr) : h.store id p = ⟨assign id p h.resources, h.directory⟩ := by
  simp [store, index, hp, assign_assign]

theorem index_store (h : Handler) (id : String) (p : Ptr) :
    (h.store id p).index id = (h.store id p, p) := by
  apply index_of_find?
  simp [store, find?_assign_self]

end Handler

/-! ## The paths through getDefault and getResource -/

namespace Resources

theorem getDefault_absent {env : Env} {T : TypeId} {s : Resources} (w : World)
    (h : find? T s.defaults = none) :
    getDefault env T s w =
      (some w.next, { s with defaults := assign T w.next s.defaults },
        (w.log Level.debug ["Loading default Resource<", env.typeName T, ">"]).alloc
          (Event.constructDefault T w.next)) := by
  simp [getDefault, h]

theorem getDefault_present {env : Env} {T : TypeId} {s : Resources} (w : World) {d : ObjId}
    (h : find? T s.defaults = some d) : getDefault env T s w = (some d, s, w) := by
  simp [getDefault, h]

theorem getDefault_ctorCalls (env : Env) (T : TypeId) (s : Resources) (w : World) :
    (getDefault env T s w).2.2.ctorCalls = w.ctorCalls := by
  cases hd : find? T s.defaults with
  | none => simp [getDefault_absent w hd]
  | some d => simp [getDefault_present w hd]

theorem getDefault_handlers (env : Env) (T : TypeId) (s : Resources) (w : World) :
    (getDefault env T s w).2.1.handlers = s.handlers := by
  cases hd : find? T s.defaults with
  | none => simp [getDefault_absent w hd]
  | some d => simp [getDefault_present w hd]

theorem getDefault_rootDir (env : Env) (T : TypeId) (s : Resources) (w : World) :
    (getDefault env T s w).2.1.rootDir = s.rootDir := by
  cases hd : find? T s.defaults with
  | none => simp [getDefault_absent w hd]
  | some d => simp [getDefault_present w hd]

theorem getDefault_returns (env : Env) (T : TypeId) (s : Resources) (w : World) :
    ∃ d, (getDefault env T s w).1 = some d ∧
      find? T (getDefault env T s w).2.1.defaults = some d := by
  cases hd : find? T s.defaults with
  | none => exact ⟨w.next, by simp [getDefault_absent w hd, find?_assign_self]⟩
  | some d => exact ⟨d, by simp [getDefault_present w hd, hd]⟩

theorem getDefault_keeps (env : Env) (T : TypeId) (s : Resources) (w : World) {U : TypeId}
    {d : ObjId} (h : find? U s.defaults = some d) :
    find? U (getDefault env T s w).2.1.defaults = some d := by
  cases hd : find? T s.defaults with
  | none =>
    have hne : T ≠ U := by
      rintro rfl
      simp [hd] at h
    simp [getDefault_absent w hd, find?_assign_ne hne, h]
  | some d => simp [getDefault_present w hd, h]

theorem getResource_unregistered {env : Env} {T : TypeId} {s : Resources} (id : String)
    (w : World) (h : find? T s.handlers = none) :
    getResource env T id s w = getDefault env T s (missing env T id w) := by
  simp [getResource, requested, missing, h]

theorem getResource_hit {env : Env} {T : TypeId} {s : Resources} {h : Handler} {id : String}
    {p : Ptr} (w : World) (hT : find? T s.handlers = some h)
    (hp : find? id h.resources = some p) :
    getResource env T id s w = (p, s, requested env T id w) := by
  simp [getResource, requested, hT, Handler.resourceExists, hp, Handler.index_of_find? hp,
    assign_of_find? hT]

theorem getResource_fail {env : Env} {T : TypeId} {s : Resources} {h : Handler} {id : String}
    (w : World) (hT : find? T s.handlers = some h) (hp : find? id h.resources = none)
    (hc : (env.construct w.next T id).1 = false) :
    getResource env T id s w = getDefault env T s (failed env T id w) := by
  simp [getResource, requested, failed, hT, Handler.resourceExists, hp, hc]

theorem getResource_load {env : Env} {T : TypeId} {s : Resources} {h : Handler} {id : String}
    (w : World) (hT : find? T s.handlers = some h) (hp : find? id h.resources = none)
    (hc : (env.construct w.next T id).1 = true) :
    getResource env T id s w =
      (some w.next,
        { s with handlers :=
            assign T ⟨assign id (some w.next) h.resources, h.directory⟩ s.handlers },
        loaded env T id w) := by
  have hi := Handler.index_store h id (some w.next)
  rw [Handler.store_of_absent hp] at hi
  simp [getResource, requested, loaded, hT, Handler.resourceExists, hp, hc,
    Handler.store_of_absent hp, hi]

/-- The four paths through `getResource`: unregistered type, cache hit,
failed construction, successful construction. -/
theorem getResource_cases (env : Env) (T : TypeId) (id : String) (s : Resources) (w : World) :
    (find? T s.handlers = none ∧
        getResource env T id s w = getDefault env T s (missing env T id w)) ∨
      (∃ h p, find? T s.handlers = some h ∧ find? id h.resources = some p ∧
        getResource env T id s w = (p, s, requested env T id w)) ∨
      (∃ h, find? T s.handlers = some h ∧ find? id h.resources = none ∧
        (env.construct w.next T id).1 = false ∧
        getResource env T id s w = getDefault env T s (failed env T id w)) ∨
      (∃ h, find? T s.handlers = some h ∧ find? id h.resources = none ∧
        (env.construct w.next T id).1 = true ∧
        getResource env T id s w =
          (some w.next,
            { s with handlers :=
                assign T ⟨assign id (some w.next) h.resources, h.directory⟩ s.handlers },
            loaded env T id w)) := by
  cases hT : find? T s.handlers with
  | none => exact Or.inl ⟨rfl, getResource_unregistered id w hT⟩
  | some h =>
    cases hp : find? id h.resources with
    | some p => exact Or.inr (Or.inl ⟨h, p, rfl, hp, getResource_hit w hT hp⟩)
    | none =>
      cases hc : (env.construct w.next T id).1 with
      | false => exact Or.inr (Or.inr (Or.inl ⟨h, rfl, hp, rfl, getResource_fail w hT hp hc⟩))
      | true => exact Or.inr (Or.inr (Or.inr ⟨h, rfl, hp, rfl, getResource_load w hT hp hc⟩))

theorem getResource_rootDir (env : Env) (T : TypeId) (id : String) (s : Resources) (w : World) :
    (getResource env T id s w).2.1.rootDir = s.rootDir := by
  rcases getResource_cases env T id s w with ⟨_, h⟩ | ⟨_, _, _, _, h⟩ | ⟨_, _, _, _, h⟩ |
    ⟨_, _, _, _, h⟩ <;> rw [h] <;> try exact getDefault_rootDir _ _ _ _

end Resources

/-! ## Path resolution -/

theorem length_pos_iff_ne_empty (x : String) : x.length > 0 ↔ x ≠ "" := by
  rw [gt_iff_lt, String.length, List.length_pos, ne_eq, ne_eq, String.ext_iff]

theorem resolve_eq_joinSegments (root dir id : String) :
    Resources.resolve root dir id = joinSegments root dir id := by
  by_cases hr : root = "" <;> by_cases hd : dir = "" <;>
    simp [Resources.resolve, joinSegments, length_pos_iff_ne_empty, hr, hd, String.intercalate,
      String.intercalate.go, String.append_assoc]

theorem resolve_length_pos (root dir id : String) (hid : id.length > 0) :
    (Resources.resolve root dir id).length > 0 := by
  simp only [Resources.resolve, String.length_append]
  omega

namespace Resources

theorem get_registered (env : Env) {T : TypeId} {id : String} {s : Resources} {h : Handler}
    (w : World) (hT : find? T s.handlers = some h) (hid : id.length > 0) :
    get env T id s w = some (getResource env T (resolve s.rootDir h.directory id) s w) := by
  simp [get, hid, hT, Handler.getDir]

theorem get_empty (env : Env) (T : TypeId) (s : Resources) (w : World) :
    get env T "" s w = some (getDefault env T s w) := by
  simp [get]

theorem getFromRoot_empty (env : Env) (T : TypeId) (s : Resources) (w : World) :
    getFromRoot env T "" s w = getDefault env T s w := by
  simp [getFromRoot]

theorem getFromRoot_nonempty (env : Env) (T : TypeId) {id : String} (s : Resources) (w : World)
    (hid : id.length > 0) : getFromRoot env T id s w = getResource env T id s w := by
  simp [getFromRoot, hid]

end Resources

/-! ## Claims -/

open Resources

/-- C1 (cache identity). In a registry where `T` is registered, for a
non-empty id that is not cached yet and whose construction reports success,
the first `get<T>(id)` constructs one instance from the resolved id and
returns it, and the second `get<T>(id)` returns the same instance, leaves the
registry as it was and calls no constructor: over the two calls the
constructor ran exactly once. -/
theorem cache_identity (env : Env) (T : TypeId) (id : String) (s : Resources) (w : World)
    (h : Handler) (hT : find? T s.handlers = some h) (hid : id.length > 0)
    (hnew : h.resourceExists (resolve s.rootDir h.getDir id) = false)
    (hok : (env.construct w.next T (resolve s.rootDir h.getDir id)).1 = true) :
    ∃ r s1 w1 w2,
      get env T id s w = some (some r, s1, w1) ∧
      get env T id s1 w1 = some (some r, s1, w2) ∧
      w1.ctorCalls = w.ctorCalls ++ [(T, resolve s.rootDir h.getDir id, r, true)] ∧
      w2.ctorCalls = w.ctorCalls ++ [(T, resolve s.rootDir h.getDir id, r, true)] := by
  have hp : find? (resolve s.rootDir h.directory id) h.resources = none := by
    simpa [Handler.resourceExists, Handler.getDir] using hnew
  simp only [Handler.getDir] at hok ⊢
  have h1 := get_registered env w hT hid
  rw [getResource_load w hT hp hok] at h1
  have hT1 : find? T (assign T (⟨assign (resolve s.rootDir h.directory id) (some w.next)
      h.resources, h.directory⟩ : Handler) s.handlers) = some _ := find?_assign_self _ _ _
  have h2 := get_registered env (s := { s with handlers := _ })
    (loaded env T (resolve s.rootDir h.directory id) w) hT1 hid
  rw [getResource_hit (s := { s with handlers := _ }) _ hT1 (find?_assign_self _ _ _)] at h2
  exact ⟨_, _, _, _, h1, h2, by simp [loaded, requested], by simp [loaded, requested]⟩

/-- Witness of C1 on the registry `registered` and the id `"a"`. -/
theorem cache_identity_witness :
    ∃ r s1 w1 w2,
      get envOk 0 "a" registered.1 registered.2 = some (some r, s1, w1) ∧
      get envOk 0 "a" s1 w1 = some (some r, s1, w2) ∧
      w1.ctorCalls = registered.2.ctorCalls ++ [(0, "r/d/a", r, true)] ∧
      w2.ctorCalls = registered.2.ctorCalls ++ [(0, "r/d/a", r, true)] :=
  cache_identity envOk 0 "a" registered.1 registered.2 (Handler.new "d") (by decide) (by decide)
    (by decide) (by decide)

/-- On an id that is already cached, `get<T>(id)` is a hit: it returns the
cached entry, constructs nothing and leaves the registry as it was. -/
theorem get_cached (env : Env) (T : TypeId) (id : String) (s : Resources) (w : World)
    (h : Handler) (p : Ptr) (hT : find? T s.handlers = some h) (hid : id.length > 0)
    (hp : find? (resolve s.rootDir h.directory id) h.resources = some p) :
    ∃ w1, get env T id s w = some (p, s, w1) ∧ w1.ctorCalls = w.ctorCalls ∧
      w1.defaultCalls = w.defaultCalls := by
  have h1 := get_registered env w hT hid
  rw [getResource_hit w hT hp] at h1
  exact ⟨_, h1, by simp [requested], by simp [requested]⟩

/-- C3 (unregistered-type safety), evaluated: on a fresh registry, where type
`0` was never registered, `get<0>("a")` has no defined result (the missing
handler is dereferenced for `getDir()`), whereas `getFromRoot<0>("a")` and
`get<0>("")` return the default instance. -/
theorem get_unregistered_undefined :
    get envOk 0 "a" (Resources.new "r" World.init).1 (Resources.new "r" World.init).2 = none ∧
    (getFromRoot envOk 0 "a" (Resources.new "r" World.init).1
      (Resources.new "r" World.init).2).1 = some 0 ∧
    (get envOk 0 "" (Resources.new "r" World.init).1 (Resources.new "r" World.init).2).map
      Prod.fst = some (some 0) := by
  decide

/-- For every unregistered type and non-empty id, `get` has no defined
result. -/
theorem get_unregistered (env : Env) (T : TypeId) (id : String) (s : Resources) (w : World)
    (hT : find? T s.handlers = none) (hid : id.length > 0) :
    Resources.get env T id s w = none := by
  simp [Resources.get, hid, hT]

/-- C4 (empty-id default). In every registry state, `get<T>("")` and
`getFromRoot<T>("")` return the same pointer `d`, which is the instance
stored as `T`'s default afterwards (and the one stored before, if there was
one); the caches and the root directory are left as they were, the id-taking
constructor is not called, and the outcome does not depend on the caches:
with any other handler map the same pointer, defaults and world result. -/
theorem empty_id_default (env : Env) (T : TypeId) (s : Resources) (w : World) :
    ∃ d s1 w1,
      get env T "" s w = some (some d, s1, w1) ∧
      getFromRoot env T "" s w = (some d, s1, w1) ∧
      find? T s1.defaults = some d ∧
      (∀ d0, find? T s.defaults = some d0 → d = d0) ∧
      s1.handlers = s.handlers ∧ s1.rootDir = s.rootDir ∧
      w1.ctorCalls = w.ctorCalls ∧
      ∀ hs : List (TypeId × Handler),
        get env T "" { s with handlers := hs } w = some (some d, { s1 with handlers := hs }, w1) ∧
        getFromRoot env T "" { s with handlers := hs } w =
          (some d, { s1 with handlers := hs }, w1) := by
  cases hd : find? T s.defaults with
  | none =>
    refine ⟨w.next, { s with defaults := assign T w.next s.defaults },
      (w.log Level.debug ["Loading default Resource<", env.typeName T, ">"]).alloc
        (Event.constructDefault T w.next), ?_, ?_, find?_assign_self _ _ _, ?_, rfl, rfl,
      by simp, ?_⟩
    · rw [get_empty, getDefault_absent w hd]
    · rw [getFromRoot_empty, getDefault_absent w hd]
    · intro d0 h0
      simp at h0
    · intro hs
      rw [get_empty, getFromRoot_empty, getDefault_absent (s := { s with handlers := hs }) w hd]
      exact ⟨rfl, rfl⟩
  | some d =>
    refine ⟨d, s, w, ?_, ?_, hd, ?_, rfl, rfl, rfl, ?_⟩
    · rw [get_empty, getDefault_present w hd]
    · rw [getFromRoot_empty, getDefault_present w hd]
    · intro d0 h0
      exact Option.some.inj h0
    · intro hs
      rw [get_empty, getFromRoot_empty, getDefault_present (s := { s with handlers := hs }) w hd]
      exact ⟨rfl, rfl⟩

/-- C5 (path resolution). For a registered type with subdirectory
`h.directory`, a registry with root `s.rootDir` and a non-empty id,
`get<T>(id)` is `getResource<T>` on the key made of root, subdirectory and
id joined by `"/"` with empty segments left out: on a miss the constructor
is called with that key, and on success the new instance is cached under
that key. With empty root and subdirectory the key is the id, with root
`"r"` alone it is `"r/" ++ id`, with root `"r"` and subdirectory `"d"` it is
`"r/d/" ++ id`. -/
theorem path_resolution (env : Env) (T : TypeId) (id : String) (s : Resources) (w : World)
    (h : Handler) (hT : find? T s.handlers = some h) (hid : id.length > 0) :
    Resources.get env T id s w =
        some (getResource env T (joinSegments s.rootDir h.directory id) s w) ∧
      (find? (joinSegments s.rootDir h.directory id) h.resources = none →
        ∃ r s1 w1, Resources.get env T id s w = some (r, s1, w1) ∧
          w1.ctorCalls = w.ctorCalls ++
            [(T, joinSegments s.rootDir h.directory id, w.next,
              (env.construct w.next T (joinSegments s.rootDir h.directory id)).1)] ∧
          ((env.construct w.next T (joinSegments s.rootDir h.directory id)).1 = true →
            r = some w.next ∧
            ∃ h1, find? T s1.handlers = some h1 ∧
              find? (joinSegments s.rootDir h.directory id) h1.resources = some (some w.next) ∧
              ∀ k, k ≠ joinSegments s.rootDir h.directory id →
                find? k h1.resources = find? k h.resources)) ∧
      joinSegments "" "" id = id ∧ joinSegments "r" "" id = "r/" ++ id ∧
      joinSegments "r" "d" id = "r/d/" ++ id := by
  have h0 := get_registered env w hT hid
  rw [resolve_eq_joinSegments] at h0
  refine ⟨h0, ?_, ?_, ?_, ?_⟩
  · intro hp
    cases hc : (env.construct w.next T (joinSegments s.rootDir h.directory id)).1 with
    | false =>
      rw [getResource_fail w hT hp hc] at h0
      refine ⟨(getDefault env T s (failed env T _ w)).1, (getDefault env T s (failed env T _ w)).2.1,
        (getDefault env T s (failed env T _ w)).2.2, h0, ?_, ?_⟩
      · rw [getDefault_ctorCalls]
        simp [failed, requested]
      · intro hf
        simp at hf
    | true =>
      rw [getResource_load w hT hp hc] at h0
      refine ⟨_, _, _, h0, by simp [loaded, requested], fun _ => ⟨rfl,
        ⟨assign (joinSegments s.rootDir h.directory id) (some w.next) h.resources, h.directory⟩,
        find?_assign_self _ _ _, find?_assign_self _ _ _, ?_⟩⟩
      intro k hk
      exact find?_assign_ne (Ne.symm hk) _ _
  · simp [joinSegments, String.intercalate, String.intercalate.go]
  · rw [← resolve_eq_joinSegments]
    rfl
  · rw [← resolve_eq_joinSegments]
    rfl

/-- Witness of C5 on the registry `registered` and the id `"a"`. -/
theorem path_resolution_witness :
    Resources.get envOk 0 "a" registered.1 registered.2 =
        some (getResource envOk 0 (joinSegments registered.1.rootDir (Handler.new "d").directory
          "a") registered.1 registered.2) ∧
      (find? (joinSegments registered.1.rootDir (Handler.new "d").directory "a")
          (Handler.new "d").resources = none →
        ∃ r s1 w1, Resources.get envOk 0 "a" registered.1 registered.2 = some (r, s1, w1) ∧
          w1.ctorCalls = registered.2.ctorCalls ++
            [(0, joinSegments registered.1.rootDir (Handler.new "d").directory "a",
              registered.2.next,
              (envOk.construct registered.2.next 0
                (joinSegments registered.1.rootDir (Handler.new "d").directory "a")).1)] ∧
          ((envOk.construct registered.2.next 0
              (joinSegments registered.1.rootDir (Handler.new "d").directory "a")).1 = true →
            r = some registered.2.next ∧
            ∃ h1, find? 0 s1.handlers = some h1 ∧
              find? (joinSegments registered.1.rootDir (Handler.new "d").directory "a")
                h1.resources = some (some registered.2.next) ∧
              ∀ k, k ≠ joinSegments registered.1.rootDir (Handler.new "d").directory "a" →
                find? k h1.resources = find? k (Handler.new "d").resources)) ∧
      joinSegments "" "" "a" = "a" ∧ joinSegments "r" "" "a" = "r/" ++ "a" ∧
      joinSegments "r" "d" "a" = "r/d/" ++ "a" :=
  path_resolution envOk 0 "a" registered.1 registered.2 (Handler.new "d") (by decide)
    (by decide)

/-! ## Invariants of sequences of calls -/

/-- The three shapes of a public call that has a result. -/
theorem call_cases {env : Env} {op : Op} {st : Resources × World} {res : Result}
    (h : call env op st = some res) :
    (∃ T dir, op = Op.initResourceType T dir ∧
        res = (none, initResourceType env T dir st.1 st.2)) ∨
      (∃ T, (op = Op.get T "" ∨ op = Op.getFromRoot T "") ∧ res = getDefault env T st.1 st.2) ∨
      (∃ T key, key.length > 0 ∧ res = getResource env T key st.1 st.2 ∧
        (op = Op.getFromRoot T key ∨
          ∃ id hd, op = Op.get T id ∧ id.length > 0 ∧ find? T st.1.handlers = some hd ∧
            key = resolve st.1.rootDir hd.directory id)) := by
  cases op with
  | initResourceType T dir =>
    simp only [call, Option.some.injEq] at h
    exact Or.inl ⟨T, dir, rfl, h.symm⟩
  | get T id =>
    by_cases hid : id.length > 0
    · cases hT : find? T st.1.handlers with
      | none => simp [call, Resources.get, hid, hT] at h
      | some hd =>
        simp only [call, get_registered env st.2 hT hid, Option.some.injEq] at h
        exact Or.inr (Or.inr ⟨T, _, resolve_length_pos _ _ _ hid, h.symm,
          Or.inr ⟨id, hd, rfl, hid, hT, rfl⟩⟩)
    · have he : id = "" := by
        by_contra hne
        exact hid ((length_pos_iff_ne_empty id).2 hne)
      subst he
      simp only [call, get_empty, Option.some.injEq] at h
      exact Or.inr (Or.inl ⟨T, Or.inl rfl, h.symm⟩)
  | getFromRoot T id =>
    by_cases hid : id.length > 0
    · simp only [call, getFromRoot_nonempty env T st.1 st.2 hid, Option.some.injEq] at h
      exact Or.inr (Or.inr ⟨T, id, hid, h.symm, Or.inl rfl⟩)
    · have he : id = "" := by
        by_contra hne
        exact hid ((length_pos_iff_ne_empty id).2 hne)
      subst he
      simp only [call, getFromRoot_empty, Option.some.injEq] at h
      exact Or.inr (Or.inl ⟨T, Or.inr rfl, h.symm⟩)

/-- A property kept by every admitted call holds after every sequence of
admitted calls. -/
theorem run_invariant {env : Env} (P : Resources × World → Prop) (A : Op → Prop)
    (hstep : ∀ op st st', A op → P st → step env op st = some st' → P st') :
    ∀ ops, (∀ op ∈ ops, A op) → ∀ st st', P st → run env ops st = some st' → P st' := by
  intro ops
  induction ops with
  | nil =>
    intro _ st st' hP hr
    simp only [run, Option.some.injEq] at hr
    exact hr ▸ hP
  | cons op ops ih =>
    intro hA st st' hP hr
    simp only [run] at hr
    cases hs : step env op st with
    | none => simp [hs] at hr
    | some st1 =>
      rw [hs] at hr
      exact ih (fun o ho => hA o (List.mem_cons_of_mem _ ho)) st1 st'
        (hstep op st st1 (hA op (List.mem_cons_self _ _)) hP hs) hr

/-- A property kept by `initResourceType`, `getDefault` and `getResource`
is kept by every public call. -/
theorem step_invariant {env : Env} (P : Resources × World → Prop)
    (hinit : ∀ T dir s w, P (s, w) → P (initResourceType env T dir s w))
    (hdef : ∀ T s w, P (s, w) → P (getDefault env T s w).2)
    (hres : ∀ T id s w, P (s, w) → P (getResource env T id s w).2) :
    ∀ op st st', P st → step env op st = some st' → P st' := by
  intro op st st' hP hs
  simp only [step, Option.map_eq_some'] at hs
  obtain ⟨res, hc, rfl⟩ := hs
  rcases call_cases hc with ⟨T, dir, _, rfl⟩ | ⟨T, _, rfl⟩ | ⟨T, key, _, rfl, _⟩
  · exact hinit T dir st.1 st.2 hP
  · exact hdef T st.1 st.2 hP
  · exact hres T key st.1 st.2 hP

/-- Induction over the states of a registry used through its public
interface. -/
theorem reachable_invariant {env : Env} (P : Resources × World → Prop)
    (hnew : ∀ root, P (Resources.new root World.init))
    (hinit : ∀ T dir s w, P (s, w) → P (initResourceType env T dir s w))
    (hdef : ∀ T s w, P (s, w) → P (getDefault env T s w).2)
    (hres : ∀ T id s w, P (s, w) → P (getResource env T id s w).2) :
    ∀ st, Reachable env st → P st := by
  rintro st ⟨root, ops, hr⟩
  exact run_invariant P (fun _ => True) (fun op a b _ => step_invariant P hinit hdef hres op a b)
    ops (fun _ _ => trivial) _ st (hnew root) hr

/-- C9 (cache invariant). In every state of a registry created by
`Resources(root)` and used only through `initResourceType`, `get` and
`getFromRoot` (calls that have a result), every id present in the cache of
any type maps to a non-null instance, and that instance was produced by a
call of the id-taking constructor of that type on that id which reported
success. -/
theorem cache_invariant (env : Env) (st : Resources × World) (hr : Reachable env st)
    (T : TypeId) (h : Handler) (key : String) (p : Ptr)
    (hT : find? T st.1.handlers = some h) (hp : find? key h.resources = some p) :
    ∃ obj, p = some obj ∧ (T, key, obj, true) ∈ st.2.ctorCalls := by
  revert T h key p
  refine reachable_invariant (fun st => ∀ (T : TypeId) (h : Handler) (key : String) (p : Ptr),
    find? T st.1.handlers = some h → find? key h.resources = some p →
      ∃ obj, p = some obj ∧ (T, key, obj, true) ∈ st.2.ctorCalls) ?_ ?_ ?_ ?_ st hr
  · intro root T h key p hT
    simp [Resources.new, find?] at hT
  · intro U dir s w ih T h key p hT hp
    by_cases hU : U = T
    · subst hU
      simp only [initResourceType, find?_assign_self, Option.some.injEq] at hT
      subst hT
      simp [Handler.new, find?] at hp
    · simp only [initResourceType, find?_assign_ne hU] at hT
      simpa [initResourceType] using ih T h key p hT hp
  · intro U s w ih T h key p hT hp
    rw [getDefault_handlers] at hT
    rw [getDefault_ctorCalls]
    exact ih T h key p hT hp
  · intro U id s w ih T h key p hT hp
    rcases getResource_cases env U id s w with ⟨_, e⟩ | ⟨_, _, _, _, e⟩ | ⟨_, _, _, _, e⟩ |
      ⟨h0, hU, h0p, _, e⟩ <;> rw [e] at hT ⊢
    · rw [getDefault_handlers] at hT
      rw [getDefault_ctorCalls]
      simpa [missing, requested] using ih T h key p hT hp
    · simpa [requested] using ih T h key p hT hp
    · rw [getDefault_handlers] at hT
      rw [getDefault_ctorCalls]
      obtain ⟨obj, ho, hm⟩ := ih T h key p hT hp
      exact ⟨obj, ho, by simp [failed, requested, hm]⟩
    · by_cases hTU : U = T
      · subst hTU
        simp only [find?_assign_self, Option.some.injEq] at hT
        subst hT
        by_cases hk : id = key
        · subst hk
          simp only [find?_assign_self, Option.some.injEq] at hp
          exact ⟨w.next, hp.symm, by simp [loaded, requested]⟩
        · simp only [find?_assign_ne hk] at hp
          obtain ⟨obj, ho, hm⟩ := ih U h0 key p hU hp
          exact ⟨obj, ho, by simp [loaded, requested, hm]⟩
      · simp only [find?_assign_ne hTU] at hT
        obtain ⟨obj, ho, hm⟩ := ih T h key p hT hp
        exact ⟨obj, ho, by simp [loaded, requested, hm]⟩

/-- Witness of C9: on `afterLoad`, reached by `initResourceType<0>("d")` and
`get<0>("a")` on a registry at root `"r"`, the entry of `"r/d/a"` is the
instance the constructor produced. -/
theorem cache_invariant_witness :
    ∃ obj, some 0 = some obj ∧ ((0 : TypeId), "r/d/a", obj, true) ∈ afterLoad.2.ctorCalls :=
  cache_invariant envOk afterLoad ⟨"r", [Op.initResourceType 0 "d", Op.get 0 "a"], by decide⟩ 0
    ⟨[("r/d/a", some 0)], "d"⟩ "r/d/a" (some 0) (by decide) (by decide)

/-! ## Reachability, registration and defaults along a sequence of calls -/

theorem run_append (env : Env) (a b : List Op) (st : Resources × World) :
    run env (a ++ b) st = (run env a st).bind (run env b) := by
  induction a generalizing st with
  | nil => simp [run]
  | cons op a ih =>
    cases hs : step env op st with
    | none => simp [run, hs]
    | some st1 => simp [run, hs, ih]

theorem reachable_run {env : Env} {st st' : Resources × World} (ops : List Op)
    (h : Reachable env st) (hr : run env ops st = some st') : Reachable env st' := by
  obtain ⟨root, ops0, h0⟩ := h
  exact ⟨root, ops0 ++ ops, by rw [run_append, h0]; exact hr⟩

theorem reachable_call {env : Env} {st : Resources × World} {res : Result} (op : Op)
    (h : Reachable env st) (hc : call env op st = some res) : Reachable env res.2 :=
  reachable_run [op] h (by simp [run, step, hc])

theorem getResource_keeps (env : Env) (T : TypeId) (id : String) (s : Resources) (w : World)
    {U : TypeId} {d : ObjId} (h : find? U s.defaults = some d) :
    find? U (getResource env T id s w).2.1.defaults = some d := by
  rcases getResource_cases env T id s w with ⟨_, e⟩ | ⟨_, _, _, _, e⟩ | ⟨_, _, _, _, e⟩ |
    ⟨_, _, _, _, e⟩ <;> rw [e]
  · exact getDefault_keeps _ _ _ _ h
  · exact h
  · exact getDefault_keeps _ _ _ _ h
  · exact h

/-- A default instance, once stored, stays the default of its type. -/
theorem run_keeps_default {env : Env} {U : TypeId} {d : ObjId} (ops : List Op)
    {st st' : Resources × World} (h : find? U st.1.defaults = some d)
    (hr : run env ops st = some st') : find? U st'.1.defaults = some d :=
  run_invariant (fun x => find? U x.1.defaults = some d) (fun _ => True)
    (fun op a b _ => step_invariant (fun x => find? U x.1.defaults = some d)
      (fun _ _ _ _ hP => hP) (fun T s w hP => getDefault_keeps env T s w hP)
      (fun T id s w hP => getResource_keeps env T id s w hP) op a b)
    ops (fun _ _ => trivial) st st' h hr

theorem getResource_registered (env : Env) (T : TypeId) (id : String) (s : Resources)
    (w : World) {U : TypeId} (h : (find? U s.handlers).isSome = true) :
    (find? U (getResource env T id s w).2.1.handlers).isSome = true := by
  rcases getResource_cases env T id s w with ⟨_, e⟩ | ⟨_, _, _, _, e⟩ | ⟨_, _, _, _, e⟩ |
    ⟨_, _, _, _, e⟩ <;> rw [e]
  · rw [getDefault_handlers]; exact h
  · exact h
  · rw [getDefault_handlers]; exact h
  · by_cases hU : T = U
    · subst hU
      simp [find?_assign_self]
    · simpa [find?_assign_ne hU] using h

/-- A registered type stays registered. -/
theorem run_keeps_registered {env : Env} {U : TypeId} (ops : List Op)
    {st st' : Resources × World} (h : (find? U st.1.handlers).isSome = true)
    (hr : run env ops st = some st') : (find? U st'.1.handlers).isSome = true := by
  refine run_invariant (fun x => (find? U x.1.handlers).isSome = true) (fun _ => True)
    (fun op a b _ => step_invariant (fun x => (find? U x.1.handlers).isSome = true)
      ?_ ?_ (fun T id s w hP => getResource_registered env T id s w hP) op a b)
    ops (fun _ _ => trivial) st st' h hr
  · intro T dir s w hP
    by_cases hU : T = U
    · subst hU
      simp [initResourceType, find?_assign_self]
    · simpa [initResourceType, find?_assign_ne hU] using hP
  · intro T s w hP
    rw [getDefault_handlers]
    exact hP

/-- With a constructor that always fails for `T`, the cache of `T` stays
empty. -/
theorem failing_cache_empty {env : Env} {T : TypeId}
    (hfail : ∀ n key, (env.construct n T key).1 = false) {st : Resources × World}
    (hr : Reachable env st) :
    ∀ h : Handler, find? T st.1.handlers = some h → h.resources = [] := by
  refine reachable_invariant (fun st => ∀ h : Handler, find? T st.1.handlers = some h →
    h.resources = []) ?_ ?_ ?_ ?_ st hr
  · intro root h hT
    simp [Resources.new, find?] at hT
  · intro U dir s w ih h hT
    by_cases hU : U = T
    · subst hU
      simp only [initResourceType, find?_assign_self, Option.some.injEq] at hT
      subst hT
      rfl
    · simp only [initResourceType, find?_assign_ne hU] at hT
      exact ih h hT
  · intro U s w ih h hT
    rw [getDefault_handlers] at hT
    exact ih h hT
  · intro U id s w ih h hT
    rcases getResource_cases env U id s w with ⟨_, e⟩ | ⟨_, _, _, _, e⟩ | ⟨_, _, _, _, e⟩ |
      ⟨h0, hU, h0p, hc, e⟩ <;> rw [e] at hT
    · rw [getDefault_handlers] at hT
      exact ih h hT
    · exact ih h hT
    · rw [getDefault_handlers] at hT
      exact ih h hT
    · by_cases hTU : U = T
      · subst hTU
        rw [hfail] at hc
        simp at hc
      · simp only [find?_assign_ne hTU] at hT
        exact ih h hT

/-- C2 (fallback on failure). Let the constructor of `T` always report
failure. In every state of a registry used through its public interface in
which `T` is registered, `get<T>(id)` with a non-empty id returns `T`'s
default instance `d` and leaves every cache as it was, the resolved id is not
in `T`'s cache afterwards, and after any further sequence of calls every
`get<T>(id2)` with a non-empty id returns the same `d`. -/
theorem fallback_on_failure (env : Env) (T : TypeId)
    (hfail : ∀ n key, (env.construct n T key).1 = false) (st : Resources × World)
    (hr : Reachable env st) (h : Handler) (hT : find? T st.1.handlers = some h) (id : String)
    (hid : id.length > 0) :
    ∃ d s1 w1,
      Resources.get env T id st.1 st.2 = some (some d, s1, w1) ∧
      find? T s1.defaults = some d ∧
      s1.handlers = st.1.handlers ∧
      h.resourceExists (resolve st.1.rootDir h.getDir id) = false ∧
      ∀ ops st2, run env ops (s1, w1) = some st2 →
        ∀ id2, id2.length > 0 →
          ∃ s3 w3, Resources.get env T id2 st2.1 st2.2 = some (some d, s3, w3) ∧
            s3.handlers = st2.1.handlers ∧
            ∀ h2, find? T s3.handlers = some h2 → ∀ key, h2.resourceExists key = false := by
  have hempty := failing_cache_empty hfail hr h hT
  have hnone : ∀ key, find? key h.resources = none := by
    intro key
    rw [hempty]
    rfl
  have hg := get_registered env st.2 hT hid
  rw [getResource_fail st.2 hT (hnone _) (hfail _ _)] at hg
  obtain ⟨d, hd1, hd2⟩ := getDefault_returns env T st.1
    (failed env T (resolve st.1.rootDir h.directory id) st.2)
  have hr1 : Reachable env (getDefault env T st.1
      (failed env T (resolve st.1.rootDir h.directory id) st.2)).2 :=
    reachable_call (Op.get T id) hr hg
  refine ⟨d, (getDefault env T st.1 (failed env T (resolve st.1.rootDir h.directory id) st.2)).2.1,
    (getDefault env T st.1 (failed env T (resolve st.1.rootDir h.directory id) st.2)).2.2, ?_,
    hd2, getDefault_handlers _ _ _ _, ?_, ?_⟩
  · rw [hg, ← hd1]
  · simp [Handler.resourceExists, hnone]
  · intro ops st2 hrun id2 hid2
    have hr2 : Reachable env st2 := reachable_run ops hr1 hrun
    have hreg : (find? T st2.1.handlers).isSome = true := by
      refine run_keeps_registered ops ?_ hrun
      simp only [getDefault_handlers, hT, Option.isSome_some]
    obtain ⟨h2, hT2⟩ := Option.isSome_iff_exists.1 hreg
    have hempty2 := failing_cache_empty hfail hr2 h2 hT2
    have hnone2 : ∀ key, find? key h2.resources = none := by
      intro key
      rw [hempty2]
      rfl
    have hg2 := get_registered env st2.2 hT2 hid2
    rw [getResource_fail st2.2 hT2 (hnone2 _) (hfail _ _),
      getDefault_present _ (run_keeps_default ops hd2 hrun)] at hg2
    refine ⟨_, _, hg2, rfl, ?_⟩
    intro h3 hT3 key
    rw [hT2, Option.some.injEq] at hT3
    subst hT3
    simp [Handler.resourceExists, hnone2]

/-- Witness of C2 on the registry `registered`, with the always-failing
constructor of `envFail`, and the id `"a"`. -/
theorem fallback_on_failure_witness :
    ∃ d s1 w1,
      Resources.get envFail 0 "a" registered.1 registered.2 = some (some d, s1, w1) ∧
      find? 0 s1.defaults = some d ∧
      s1.handlers = registered.1.handlers ∧
      (Handler.new "d").resourceExists
        (resolve registered.1.rootDir (Handler.new "d").getDir "a") = false ∧
      ∀ ops st2, run envFail ops (s1, w1) = some st2 →
        ∀ id2, id2.length > 0 →
          ∃ s3 w3, Resources.get envFail 0 id2 st2.1 st2.2 = some (some d, s3, w3) ∧
            s3.handlers = st2.1.handlers ∧
            ∀ h2, find? 0 s3.handlers = some h2 → ∀ key, h2.resourceExists key = false :=
  fallback_on_failure envFail 0 (fun _ _ => rfl) registered
    ⟨"r", [Op.initResourceType 0 "d"], by decide⟩ (Handler.new "d") (by decide) "a" (by decide)

/-! ## The default instance -/

theorem defaultCallsOf_congr {w w' : World} (h : w'.defaultCalls = w.defaultCalls) (T : TypeId) :
    w'.defaultCallsOf T = w.defaultCallsOf T := by
  simp [World.defaultCallsOf, h]

theorem requested_defaultCalls (env : Env) (T : TypeId) (id : String) (w : World) :
    (requested env T id w).defaultCalls = w.defaultCalls := by
  simp [requested]

theorem missing_defaultCalls (env : Env) (T : TypeId) (id : String) (w : World) :
    (missing env T id w).defaultCalls = w.defaultCalls := by
  simp [missing, requested]

theorem failed_defaultCalls (env : Env) (T : TypeId) (id : String) (w : World) :
    (failed env T id w).defaultCalls = w.defaultCalls := by
  simp [failed, requested]

theorem loaded_defaultCalls (env : Env) (T : TypeId) (id : String) (w : World) :
    (loaded env T id w).defaultCalls = w.defaultCalls := by
  simp [loaded, requested]

/-- The default-constructor calls of `T` after `getDefault<U>`: one more
exactly when `U` is `T` and `T` has no default yet. -/
theorem getDefault_defaultCallsOf (env : Env) (U T : TypeId) (s : Resources) (w : World) :
    (getDefault env U s w).2.2.defaultCallsOf T =
      w.defaultCallsOf T ++
        (if U = T ∧ find? T s.defaults = none then [w.next] else []) := by
  cases hd : find? U s.defaults with
  | none =>
    rw [getDefault_absent w hd]
    by_cases hU : U = T
    · subst hU
      simp [World.defaultCallsOf, List.filterMap_append, hd]
    · simp [World.defaultCallsOf, List.filterMap_append, hU]
  | some d =>
    rw [getDefault_present w hd]
    by_cases hU : U = T
    · subst hU
      simp [hd]
    · simp [hU]

theorem getDefault_other (env : Env) {U T : TypeId} (hne : U ≠ T) (s : Resources) (w : World) :
    find? T (getDefault env U s w).2.1.defaults = find? T s.defaults := by
  cases hd : find? U s.defaults with
  | none => simp [getDefault_absent w hd, find?_assign_ne hne]
  | some d => simp [getDefault_present w hd]

/-- The default-constructor calls of `T` are exactly the stored default. -/
theorem defaults_recorded {env : Env} (T : TypeId) {st : Resources × World}
    (hr : Reachable env st) :
    st.2.defaultCallsOf T = (find? T st.1.defaults).toList := by
  have key : ∀ U (s : Resources) (w w' : World), w'.defaultCalls = w.defaultCalls →
      w.defaultCallsOf T = (find? T s.defaults).toList →
      (getDefault env U s w').2.2.defaultCallsOf T =
        (find? T (getDefault env U s w').2.1.defaults).toList := by
    intro U s w w' hw ih
    rw [getDefault_defaultCallsOf, defaultCallsOf_congr hw, ih]
    by_cases hU : U = T
    · subst hU
      cases hd : find? U s.defaults with
      | none => simp [getDefault_absent w' hd, find?_assign_self, hw]
      | some d => simp [getDefault_present w' hd, hd]
    · simp [hU, getDefault_other env hU]
  refine reachable_invariant (fun st => st.2.defaultCallsOf T = (find? T st.1.defaults).toList)
    ?_ ?_ ?_ ?_ st hr
  · intro root
    rfl
  · intro U dir s w ih
    simpa [initResourceType, World.defaultCallsOf] using ih
  · intro U s w ih
    exact key U s w w rfl ih
  · intro U id s w ih
    rcases getResource_cases env U id s w with ⟨_, e⟩ | ⟨_, _, _, _, e⟩ | ⟨_, _, _, _, e⟩ |
      ⟨_, _, _, _, e⟩ <;> rw [e]
    · exact key U s w _ (missing_defaultCalls _ _ _ _) ih
    · simpa [defaultCallsOf_congr (requested_defaultCalls env U id w)] using ih
    · exact key U s w _ (failed_defaultCalls _ _ _ _) ih
    · simpa [defaultCallsOf_congr (loaded_defaultCalls env U id w)] using ih

theorem getResource_needs {env : Env} {T : TypeId} {key : String} {s : Resources} {w : World}
    (h : resourceNeedsDefault env T key (s, w) = true) :
    ∃ w', getResource env T key s w = getDefault env T s w' ∧
      w'.defaultCalls = w.defaultCalls := by
  rcases getResource_cases env T key s w with ⟨_, e⟩ | ⟨h0, p, hT, hp, _⟩ | ⟨_, _, _, _, e⟩ |
    ⟨h0, hT, hp, hc, _⟩
  · exact ⟨_, e, missing_defaultCalls _ _ _ _⟩
  · simp [resourceNeedsDefault, hT, Handler.resourceExists, hp] at h
  · exact ⟨_, e, failed_defaultCalls _ _ _ _⟩
  · simp [resourceNeedsDefault, hT, Handler.resourceExists, hp, hc] at h

theorem getResource_not_needs {env : Env} {T : TypeId} {key : String} {s : Resources}
    {w : World} (h : resourceNeedsDefault env T key (s, w) = false) :
    (getResource env T key s w).2.1.defaults = s.defaults ∧
      (getResource env T key s w).2.2.defaultCalls = w.defaultCalls := by
  rcases getResource_cases env T key s w with ⟨hT, _⟩ | ⟨_, _, _, _, e⟩ | ⟨h0, hT, hp, hc, _⟩ |
    ⟨_, _, _, _, e⟩
  · simp [resourceNeedsDefault, hT] at h
  · rw [e]
    exact ⟨rfl, requested_defaultCalls _ _ _ _⟩
  · simp [resourceNeedsDefault, hT, Handler.resourceExists, hp, hc] at h
  · rw [e]
    exact ⟨rfl, loaded_defaultCalls _ _ _ _⟩

theorem getResource_other (env : Env) {U T : TypeId} (hne : U ≠ T) (id : String)
    (s : Resources) (w : World) :
    find? T (getResource env U id s w).2.1.defaults = find? T s.defaults ∧
      (getResource env U id s w).2.2.defaultCallsOf T = w.defaultCallsOf T := by
  rcases getResource_cases env U id s w with ⟨_, e⟩ | ⟨_, _, _, _, e⟩ | ⟨_, _, _, _, e⟩ |
    ⟨_, _, _, _, e⟩ <;> rw [e]
  · exact ⟨getDefault_other env hne _ _, by
      simp [getDefault_defaultCallsOf, hne, defaultCallsOf_congr (missing_defaultCalls env U id w)]⟩
  · exact ⟨rfl, defaultCallsOf_congr (requested_defaultCalls _ _ _ _) T⟩
  · exact ⟨getDefault_other env hne _ _, by
      simp [getDefault_defaultCallsOf, hne, defaultCallsOf_congr (failed_defaultCalls env U id w)]⟩
  · exact ⟨rfl, defaultCallsOf_congr (loaded_defaultCalls _ _ _ _) T⟩

/-- A call that needs the default of `T` returns through `getDefault<T>`. -/
theorem call_needs {env : Env} {T : TypeId} {op : Op} {st : Resources × World} {res : Result}
    (hc : call env op st = some res) (hn : needsDefault env T op st = true) :
    ∃ w', res = getDefault env T st.1 w' ∧ w'.defaultCalls = st.2.defaultCalls := by
  cases op with
  | initResourceType U dir => simp [needsDefault] at hn
  | get U id =>
    simp only [needsDefault, Bool.and_eq_true, Bool.or_eq_true, decide_eq_true_eq] at hn
    obtain ⟨rfl, hn⟩ := hn
    by_cases he : id = ""
    · subst he
      simp only [call, get_empty, Option.some.injEq] at hc
      exact ⟨st.2, hc.symm, rfl⟩
    · have hid := (length_pos_iff_ne_empty id).2 he
      cases hT : find? U st.1.handlers with
      | none => simp [call, Resources.get, hid, hT] at hc
      | some h =>
        simp only [call, get_registered env st.2 hT hid, Option.some.injEq] at hc
        simp only [he, hT, false_or] at hn
        obtain ⟨w', e, hw⟩ := getResource_needs hn
        exact ⟨w', hc.symm.trans e, hw⟩
  | getFromRoot U id =>
    simp only [needsDefault, Bool.and_eq_true, Bool.or_eq_true, decide_eq_true_eq] at hn
    obtain ⟨rfl, hn⟩ := hn
    by_cases he : id = ""
    · subst he
      simp only [call, getFromRoot_empty, Option.some.injEq] at hc
      exact ⟨st.2, hc.symm, rfl⟩
    · have hid := (length_pos_iff_ne_empty id).2 he
      simp only [call, getFromRoot_nonempty env U st.1 st.2 hid, Option.some.injEq] at hc
      simp only [he, false_or] at hn
      obtain ⟨w', e, hw⟩ := getResource_needs hn
      exact ⟨w', hc.symm.trans e, hw⟩

/-- A call that does not need the default of `T` neither stores nor
constructs one. -/
theorem call_not_needs {env : Env} {T : TypeId} {op : Op} {st : Resources × World}
    {res : Result} (hc : call env op st = some res) (hn : needsDefault env T op st = false) :
    find? T res.2.1.defaults = find? T st.1.defaults ∧
      res.2.2.defaultCallsOf T = st.2.defaultCallsOf T := by
  cases op with
  | initResourceType U dir =>
    simp only [call, Option.some.injEq] at hc
    subst hc
    exact ⟨rfl, by simp [initResourceType, World.defaultCallsOf]⟩
  | get U id =>
    by_cases hU : U = T
    · subst hU
      have he : id ≠ "" := by
        rintro rfl
        simp [needsDefault] at hn
      have hid := (length_pos_iff_ne_empty id).2 he
      cases hT : find? U st.1.handlers with
      | none => simp [call, Resources.get, hid, hT] at hc
      | some h =>
        simp only [call, get_registered env st.2 hT hid, Option.some.injEq] at hc
        simp only [needsDefault, he, hT, decide_True, decide_False, Bool.true_and,
          Bool.false_or] at hn
        subst hc
        obtain ⟨h1, h2⟩ := getResource_not_needs hn
        exact ⟨by rw [h1], defaultCallsOf_congr h2 U⟩
    · rcases call_cases hc with ⟨_, _, ho, _⟩ | ⟨V, ho, rfl⟩ | ⟨V, key, _, rfl, ho⟩
      · cases ho
      · rcases ho with ho | ho <;> cases ho
        exact ⟨getDefault_other env hU _ _, by simp [getDefault_defaultCallsOf, hU]⟩
      · rcases ho with ho | ⟨_, _, ho, _⟩ <;> cases ho
        exact getResource_other env hU _ _ _
  | getFromRoot U id =>
    by_cases hU : U = T
    · subst hU
      have he : id ≠ "" := by
        rintro rfl
        simp [needsDefault] at hn
      have hid := (length_pos_iff_ne_empty id).2 he
      simp only [call, getFromRoot_nonempty env U st.1 st.2 hid, Option.some.injEq] at hc
      simp only [needsDefault, he, decide_True, decide_False, Bool.true_and,
        Bool.false_or] at hn
      subst hc
      obtain ⟨h1, h2⟩ := getResource_not_needs hn
      exact ⟨by rw [h1], defaultCallsOf_congr h2 U⟩
    · rcases call_cases hc with ⟨_, _, ho, _⟩ | ⟨V, ho, rfl⟩ | ⟨V, key, _, rfl, ho⟩
      · cases ho
      · rcases ho with ho | ho <;> cases ho
        exact ⟨getDefault_other env hU _ _, by simp [getDefault_defaultCallsOf, hU]⟩
      · rcases ho with ho | ⟨_, _, ho, _⟩ <;> cases ho
        exact getResource_other env hU _ _ _

/-- The default of `T` is stored after a sequence of calls exactly when it
was stored before or one of the calls needed it. -/
theorem default_stored_iff {env : Env} (T : TypeId) (ops : List Op) :
    ∀ st st', run env ops st = some st' →
      (find? T st'.1.defaults).isSome =
        ((find? T st.1.defaults).isSome || everNeeded env T ops st) := by
  induction ops with
  | nil =>
    intro st st' hr
    simp only [run, Option.some.injEq] at hr
    subst hr
    simp [everNeeded]
  | cons op ops ih =>
    intro st st' hr
    simp only [run] at hr
    cases hs : step env op st with
    | none => simp [hs] at hr
    | some st1 =>
      rw [hs] at hr
      rw [ih st1 st' hr]
      simp only [everNeeded, hs]
      simp only [step, Option.map_eq_some'] at hs
      obtain ⟨res, hc, rfl⟩ := hs
      cases hn : needsDefault env T op st with
      | true =>
        obtain ⟨w', rfl, _⟩ := call_needs hc hn
        obtain ⟨d, _, hd⟩ := getDefault_returns env T st.1 w'
        simp [hd]
      | false =>
        rw [(call_not_needs hc hn).1]
        simp

/-- C6 (lazy memoized default). After any sequence `ops` of public calls
on a registry created by `Resources(root)`: if none of the calls needed the
default of `T` (empty id, unregistered type or failed construction), the
default constructor `T(res)` has not been called and no default is stored;
if one did, it has been called exactly once, and the object it created is
the stored default. A further call that needs the default of `T` returns
that object `d`, the default constructor having been called exactly once
when it returns, and so does every later call that needs it. -/
theorem lazy_memoized_default (env : Env) (T : TypeId) (root : String) (ops : List Op)
    (st : Resources × World) (hr : run env ops (Resources.new root World.init) = some st) :
    (everNeeded env T ops (Resources.new root World.init) = false →
        st.2.defaultCallsOf T = [] ∧ find? T st.1.defaults = none) ∧
      (everNeeded env T ops (Resources.new root World.init) = true →
        ∃ d, st.2.defaultCallsOf T = [d] ∧ find? T st.1.defaults = some d) ∧
      ∀ op res, call env op st = some res → needsDefault env T op st = true →
        ∃ d, res.1 = some d ∧ res.2.2.defaultCallsOf T = [d] ∧
          (∀ d0, find? T st.1.defaults = some d0 → d = d0) ∧
          ∀ ops1 st1 op1 res1, run env ops1 res.2 = some st1 → call env op1 st1 = some res1 →
            needsDefault env T op1 st1 = true →
              res1.1 = some d ∧ res1.2.2.defaultCallsOf T = [d] := by
  have hreach : Reachable env st := ⟨root, ops, hr⟩
  have hrec := defaults_recorded T hreach
  have hst := default_stored_iff T ops _ _ hr
  have hfresh : find? T (Resources.new root World.init).1.defaults = none := rfl
  rw [hfresh, Option.isSome_none, Bool.false_or] at hst
  refine ⟨?_, ?_, ?_⟩
  · intro hn
    rw [hn] at hst
    have hnone : find? T st.1.defaults = none := by
      cases hd : find? T st.1.defaults with
      | none => rfl
      | some d => simp [hd] at hst
    exact ⟨by rw [hrec, hnone]; rfl, hnone⟩
  · intro hn
    rw [hn] at hst
    obtain ⟨d, hd⟩ := Option.isSome_iff_exists.1 hst
    exact ⟨d, by rw [hrec, hd]; rfl, hd⟩
  · intro op res hc hn
    obtain ⟨w', rfl, _⟩ := call_needs hc hn
    obtain ⟨d, hd1, hd2⟩ := getDefault_returns env T st.1 w'
    have hreach1 := reachable_call op hreach hc
    refine ⟨d, hd1, by rw [defaults_recorded T hreach1, hd2]; rfl, ?_, ?_⟩
    · intro d0 h0
      rw [getDefault_present w' h0] at hd1
      exact (Option.some.inj hd1).symm
    · intro ops1 st1 op1 res1 hr1 hc1 hn1
      have hd3 := run_keeps_default ops1 hd2 hr1
      have hreach2 := reachable_call op1 (reachable_run ops1 hreach1 hr1) hc1
      obtain ⟨w'', rfl, _⟩ := call_needs hc1 hn1
      rw [defaults_recorded T hreach2]
      rw [getDefault_present w'' hd3]
      exact ⟨rfl, by rw [hd3]; rfl⟩

/-- Witness of C6: the calls `initResourceType<0>("d")`, `get<0>("a")`
(a successful load) and `get<0>("")` on a registry at root `"r"`. -/
theorem lazy_memoized_default_witness :
    (everNeeded envOk 0 [Op.initResourceType 0 "d", Op.get 0 "a", Op.get 0 ""]
          (Resources.new "r" World.init) = false →
        afterDefault.2.defaultCallsOf 0 = [] ∧ find? 0 afterDefault.1.defaults = none) ∧
      (everNeeded envOk 0 [Op.initResourceType 0 "d", Op.get 0 "a", Op.get 0 ""]
          (Resources.new "r" World.init) = true →
        ∃ d, afterDefault.2.defaultCallsOf 0 = [d] ∧ find? 0 afterDefault.1.defaults = some d) ∧
      ∀ op res, call envOk op afterDefault = some res →
        needsDefault envOk 0 op afterDefault = true →
        ∃ d, res.1 = some d ∧ res.2.2.defaultCallsOf 0 = [d] ∧
          (∀ d0, find? 0 afterDefault.1.defaults = some d0 → d = d0) ∧
          ∀ ops1 st1 op1 res1, run envOk ops1 res.2 = some st1 →
            call envOk op1 st1 = some res1 → needsDefault envOk 0 op1 st1 = true →
              res1.1 = some d ∧ res1.2.2.defaultCallsOf 0 = [d] :=
  lazy_memoized_default envOk 0 "r" [Op.initResourceType 0 "d", Op.get 0 "a", Op.get 0 ""]
    afterDefault (by decide)

/-! ## Cache entries along a sequence of calls -/

theorem run_keeps_rootDir {env : Env} (ops : List Op) {st st' : Resources × World}
    (hr : run env ops st = some st') : st'.1.rootDir = st.1.rootDir :=
  run_invariant (fun x => x.1.rootDir = st.1.rootDir) (fun _ => True)
    (fun op a b _ => step_invariant (fun x => x.1.rootDir = st.1.rootDir)
      (fun _ _ _ _ hP => hP) (fun T s w hP => (getDefault_rootDir env T s w).trans hP)
      (fun T id s w hP => (getResource_rootDir env T id s w).trans hP) op a b)
    ops (fun _ _ => trivial) st st' rfl hr

/-- `getResource` removes or replaces no cache entry and changes no
subdirectory. -/
theorem getResource_keeps_entry (env : Env) (V : TypeId) (id : String) (s : Resources)
    (w : World) {U : TypeId} {hU : Handler} {key : String} {p : Ptr}
    (hT : find? U s.handlers = some hU) (hp : find? key hU.resources = some p) :
    ∃ hU', find? U (getResource env V id s w).2.1.handlers = some hU' ∧
      hU'.directory = hU.directory ∧ find? key hU'.resources = some p := by
  rcases getResource_cases env V id s w with ⟨_, e⟩ | ⟨_, _, _, _, e⟩ | ⟨_, _, _, _, e⟩ |
    ⟨h0, hV, h0p, _, e⟩ <;> rw [e]
  · exact ⟨hU, by rw [getDefault_handlers]; exact hT, rfl, hp⟩
  · exact ⟨hU, hT, rfl, hp⟩
  · exact ⟨hU, by rw [getDefault_handlers]; exact hT, rfl, hp⟩
  · by_cases hVU : V = U
    · subst hVU
      rw [hT, Option.some.injEq] at hV
      subst hV
      have hk : id ≠ key := by
        rintro rfl
        rw [hp] at h0p
        simp at h0p
      exact ⟨_, find?_assign_self _ _ _, rfl, by simpa [find?_assign_ne hk] using hp⟩
    · exact ⟨hU, by simpa [find?_assign_ne hVU] using hT, rfl, hp⟩

/-- No call other than `initResourceType<U>` removes or replaces an entry of
the cache of `U` or changes the subdirectory of `U`. -/
theorem run_keeps_entry {env : Env} {U : TypeId} (ops : List Op)
    (hops : ∀ dir, Op.initResourceType U dir ∉ ops) {st st' : Resources × World}
    {hU : Handler} {key : String} {p : Ptr} (hT : find? U st.1.handlers = some hU)
    (hp : find? key hU.resources = some p) (hr : run env ops st = some st') :
    ∃ hU', find? U st'.1.handlers = some hU' ∧ hU'.directory = hU.directory ∧
      find? key hU'.resources = some p := by
  refine run_invariant (fun x => ∃ hU', find? U x.1.handlers = some hU' ∧
    hU'.directory = hU.directory ∧ find? key hU'.resources = some p)
    (fun op => ∀ dir, op ≠ Op.initResourceType U dir) ?_ ops
    (fun op ho dir he => hops dir (he ▸ ho)) st st' ⟨hU, hT, rfl, hp⟩ hr
  intro op a b hA hP hs
  obtain ⟨h1, h1T, h1d, h1p⟩ := hP
  simp only [step, Option.map_eq_some'] at hs
  obtain ⟨res, hc, rfl⟩ := hs
  rcases call_cases hc with ⟨T, dir, rfl, rfl⟩ | ⟨T, _, rfl⟩ | ⟨T, k, _, rfl, _⟩
  · have hne : T ≠ U := by
      rintro rfl
      exact hA dir rfl
    exact ⟨h1, by simpa [initResourceType, find?_assign_ne hne] using h1T, h1d, h1p⟩
  · exact ⟨h1, by rw [getDefault_handlers]; exact h1T, h1d, h1p⟩
  · obtain ⟨h2, h2T, h2d, h2p⟩ := getResource_keeps_entry env T k a.1 a.2 h1T h1p
    exact ⟨h2, h2T, h2d.trans h1d, h2p⟩

/-- C7 (no eviction), as stated, fails: on the registry `registered`,
`get<0>("a")` constructs and caches instance `0`; after a second
`initResourceType<0>("d")` the cache of type `0` is empty, and the next
`get<0>("a")` calls the constructor again and returns another instance. -/
theorem no_eviction_counterexample :
    Resources.get envOk 0 "a" registered.1 registered.2 = some (some 0, afterLoad) ∧
      find? 0 afterLoad.1.handlers = some ⟨[("r/d/a", some 0)], "d"⟩ ∧
      run envOk [Op.initResourceType 0 "d"] afterLoad = some reRegistered ∧
      find? 0 reRegistered.1.handlers = some ⟨[], "d"⟩ ∧
      (Resources.get envOk 0 "a" reRegistered.1 reRegistered.2).map Prod.fst = some (some 1) ∧
      ((Resources.get envOk 0 "a" reRegistered.1 reRegistered.2).map
        fun res => res.2.2.ctorCalls) =
        some [(0, "r/d/a", 0, true), (0, "r/d/a", 1, true)] := by
  decide

/-- C7 (no eviction), amended. Once `get<T>(id)` with a non-empty id has
returned an instance `r` that is cached under the resolved id, then after any
further sequence of public calls that does not call `initResourceType<T>`
again, `get<T>(id)` still returns `r`, calls no constructor and leaves the
registry as it is; and an entry of the cache of any type `U` is neither
removed nor replaced by a sequence of calls without `initResourceType<U>`. -/
theorem no_eviction (env : Env) (T : TypeId) (id : String) (s : Resources) (w : World)
    (r : ObjId) (s1 : Resources) (w1 : World) (h1 : Handler) (hid : id.length > 0)
    (hg : Resources.get env T id s w = some (some r, s1, w1))
    (hT : find? T s1.handlers = some h1)
    (hc : find? (resolve s1.rootDir h1.directory id) h1.resources = some (some r))
    (ops : List Op) (st2 : Resources × World) (hr : run env ops (s1, w1) = some st2) :
    ((∀ dir, Op.initResourceType T dir ∉ ops) →
        ∃ w3, Resources.get env T id st2.1 st2.2 = some (some r, st2.1, w3) ∧
          w3.ctorCalls = st2.2.ctorCalls ∧ w3.defaultCalls = st2.2.defaultCalls) ∧
      ∀ U hU key p, (∀ dir, Op.initResourceType U dir ∉ ops) →
        find? U s1.handlers = some hU → find? key hU.resources = some p →
          ∃ hU', find? U st2.1.handlers = some hU' ∧ hU'.directory = hU.directory ∧
            find? key hU'.resources = some p := by
  have _ := hg
  refine ⟨?_, ?_⟩
  · intro hops
    obtain ⟨h2, h2T, h2d, h2p⟩ := run_keeps_entry ops hops hT hc hr
    have hroot : st2.1.rootDir = s1.rootDir := run_keeps_rootDir ops hr
    have hg2 := get_registered env st2.2 h2T hid
    rw [hroot, h2d, getResource_hit st2.2 h2T h2p] at hg2
    exact ⟨_, hg2, by simp [requested], by simp [requested]⟩
  · intro U hU key p hops hUT hp
    exact run_keeps_entry ops hops hUT hp hr

/-- Witness of C7 amended: after the load of `"a"` on `registered`, the
calls `initResourceType<1>("e")`, `getFromRoot<1>("b")` and `get<0>("")`. -/
theorem no_eviction_witness :
    ((∀ dir, Op.initResourceType 0 dir ∉
          [Op.initResourceType 1 "e", Op.getFromRoot 1 "b", Op.get 0 ""]) →
        ∃ w3, Resources.get envOk 0 "a" afterOthers.1 afterOthers.2 =
            some (some 0, afterOthers.1, w3) ∧
          w3.ctorCalls = afterOthers.2.ctorCalls ∧
          w3.defaultCalls = afterOthers.2.defaultCalls) ∧
      ∀ U hU key p,
        (∀ dir, Op.initResourceType U dir ∉
          [Op.initResourceType 1 "e", Op.getFromRoot 1 "b", Op.get 0 ""]) →
        find? U afterLoad.1.handlers = some hU → find? key hU.resources = some p →
          ∃ hU', find? U afterOthers.1.handlers = some hU' ∧ hU'.directory = hU.directory ∧
            find? key hU'.resources = some p :=
  no_eviction envOk 0 "a" registered.1 registered.2 0 afterLoad.1 afterLoad.2
    ⟨[("r/d/a", some 0)], "d"⟩ (by decide) (by decide) (by decide) (by decide)
    [Op.initResourceType 1 "e", Op.getFromRoot 1 "b", Op.get 0 ""] afterOthers (by decide)

/-- C8 (re-registration replaces the cache). After
`initResourceType<T>(dir2)` on a registry where `T` is already registered
with handler `h0`, `T` is registered with an empty cache and subdirectory
`dir2`: every id cached in `h0` is absent, the defaults, the root directory
and the default-constructor calls are as before, and the next `get<T>(id)`
with a non-empty id calls the constructor on the id resolved under `dir2`
(returning the new instance when it reports success). -/
theorem reregistration_replaces_cache (env : Env) (T : TypeId) (dir2 : String) (s : Resources)
    (w : World) (h0 : Handler) (hT : find? T s.handlers = some h0) :
    find? T (initResourceType env T dir2 s w).1.handlers = some ⟨[], dir2⟩ ∧
      (∀ key p, find? key h0.resources = some p →
        ∃ h1, find? T (initResourceType env T dir2 s w).1.handlers = some h1 ∧
          h1.resourceExists key = false ∧ h1.getDir = dir2) ∧
      (initResourceType env T dir2 s w).1.defaults = s.defaults ∧
      (initResourceType env T dir2 s w).1.rootDir = s.rootDir ∧
      (initResourceType env T dir2 s w).2.defaultCalls = w.defaultCalls ∧
      (initResourceType env T dir2 s w).2.ctorCalls = w.ctorCalls ∧
      ∀ id, id.length > 0 →
        ∃ r s2 w2,
          Resources.get env T id (initResourceType env T dir2 s w).1
            (initResourceType env T dir2 s w).2 = some (r, s2, w2) ∧
          w2.ctorCalls = w.ctorCalls ++
            [(T, resolve s.rootDir dir2 id, w.next,
              (env.construct w.next T (resolve s.rootDir dir2 id)).1)] ∧
          ((env.construct w.next T (resolve s.rootDir dir2 id)).1 = true →
            r = some w.next) := by
  have hreg : find? T (initResourceType env T dir2 s w).1.handlers = some ⟨[], dir2⟩ :=
    find?_assign_self _ _ _
  have _ := hT
  refine ⟨hreg, fun key p _ => ⟨_, hreg, rfl, rfl⟩, rfl, rfl, by simp [initResourceType],
    by simp [initResourceType], ?_⟩
  intro id hid
  have hg := get_registered env (initResourceType env T dir2 s w).2 hreg hid
  have hroot : (initResourceType env T dir2 s w).1.rootDir = s.rootDir := rfl
  have hnext : (initResourceType env T dir2 s w).2.next = w.next := rfl
  have hcalls : (initResourceType env T dir2 s w).2.ctorCalls = w.ctorCalls := by
    simp [initResourceType]
  simp only [hroot] at hg
  cases hc : (env.construct w.next T (resolve s.rootDir dir2 id)).1 with
  | false =>
    rw [getResource_fail _ hreg rfl (by rw [hnext]; exact hc)] at hg
    refine ⟨(getDefault env T _ (failed env T _ _)).1, (getDefault env T _ (failed env T _ _)).2.1,
      (getDefault env T _ (failed env T _ _)).2.2, hg, ?_, ?_⟩
    · rw [getDefault_ctorCalls]
      simp [failed, requested, hcalls, hnext]
    · intro hf
      simp at hf
  | true =>
    rw [getResource_load _ hreg rfl (by rw [hnext]; exact hc)] at hg
    exact ⟨_, _, _, hg, by simp [loaded, requested, hcalls, hnext], fun _ => by rw [hnext]⟩

/-- Witness of C8: `initResourceType<0>("e")` on the registry `afterLoad`,
which caches `"r/d/a"` for type `0`. -/
theorem reregistration_replaces_cache_witness :
    find? 0 (initResourceType envOk 0 "e" afterLoad.1 afterLoad.2).1.handlers =
        some ⟨[], "e"⟩ ∧
      (∀ key p, find? key (⟨[("r/d/a", some 0)], "d"⟩ : Handler).resources = some p →
        ∃ h1, find? 0 (initResourceType envOk 0 "e" afterLoad.1 afterLoad.2).1.handlers =
            some h1 ∧
          h1.resourceExists key = false ∧ h1.getDir = "e") ∧
      (initResourceType envOk 0 "e" afterLoad.1 afterLoad.2).1.defaults = afterLoad.1.defaults ∧
      (initResourceType envOk 0 "e" afterLoad.1 afterLoad.2).1.rootDir = afterLoad.1.rootDir ∧
      (initResourceType envOk 0 "e" afterLoad.1 afterLoad.2).2.defaultCalls =
        afterLoad.2.defaultCalls ∧
      (initResourceType envOk 0 "e" afterLoad.1 afterLoad.2).2.ctorCalls =
        afterLoad.2.ctorCalls ∧
      ∀ id, id.length > 0 →
        ∃ r s2 w2,
          Resources.get envOk 0 id (initResourceType envOk 0 "e" afterLoad.1 afterLoad.2).1
            (initResourceType envOk 0 "e" afterLoad.1 afterLoad.2).2 = some (r, s2, w2) ∧
          w2.ctorCalls = afterLoad.2.ctorCalls ++
            [(0, resolve afterLoad.1.rootDir "e" id, afterLoad.2.next,
              (envOk.construct afterLoad.2.next 0 (resolve afterLoad.1.rootDir "e" id)).1)] ∧
          ((envOk.construct afterLoad.2.next 0 (resolve afterLoad.1.rootDir "e" id)).1 = true →
            r = some afterLoad.2.next) :=
  reregistration_replaces_cache envOk 0 "e" afterLoad.1 afterLoad.2
    ⟨[("r/d/a", some 0)], "d"⟩ (by decide)

/-- C10 (one cache for `get` and `getFromRoot`). For a registered type
with subdirectory `h.directory` and a non-empty id, `get<T>(id)` has the
result, the registry and the effects of `getFromRoot<T>(k)`, where `k` is
root, subdirectory and id joined as in path resolution; and when `get<T>(id)`
does not fall back to the default (a hit or a successful load), a following
`getFromRoot<T>(k)` returns the same instance, leaves the registry as it is
and calls no constructor. -/
theorem get_shares_cache_with_getFromRoot (env : Env) (T : TypeId) (id : String)
    (s : Resources) (w : World) (h : Handler) (hT : find? T s.handlers = some h)
    (hid : id.length > 0) :
    Resources.get env T id s w =
        some (getFromRoot env T (joinSegments s.rootDir h.directory id) s w) ∧
      (resourceNeedsDefault env T (joinSegments s.rootDir h.directory id) (s, w) = false →
        ∃ r s1 w1 w2,
          Resources.get env T id s w = some (r, s1, w1) ∧
          (∃ h1, find? T s1.handlers = some h1 ∧
            find? (joinSegments s.rootDir h.directory id) h1.resources = some r) ∧
          getFromRoot env T (joinSegments s.rootDir h.directory id) s1 w1 = (r, s1, w2) ∧
          w2.ctorCalls = w1.ctorCalls ∧ w2.defaultCalls = w1.defaultCalls) := by
  have hlen : (joinSegments s.rootDir h.directory id).length > 0 := by
    rw [← resolve_eq_joinSegments]
    exact resolve_length_pos _ _ _ hid
  have hg := get_registered env w hT hid
  rw [resolve_eq_joinSegments] at hg
  refine ⟨by rw [hg, getFromRoot_nonempty env T s w hlen], ?_⟩
  intro hn
  rcases getResource_cases env T (joinSegments s.rootDir h.directory id) s w with
    ⟨hT0, _⟩ | ⟨h1, p, hT1, hp, e⟩ | ⟨h1, hT1, hp, hc, _⟩ | ⟨h1, hT1, hp, hc, e⟩
  · simp [resourceNeedsDefault, hT0] at hn
  · rw [e] at hg
    have hf := getFromRoot_nonempty env T s
      (requested env T (joinSegments s.rootDir h.directory id) w) hlen
    rw [getResource_hit _ hT1 hp] at hf
    exact ⟨_, _, _, _, hg, ⟨h1, hT1, hp⟩, hf, by simp [requested], by simp [requested]⟩
  · simp [resourceNeedsDefault, hT1, Handler.resourceExists, hp, hc] at hn
  · rw [e] at hg
    have hT2 : find? T (assign T (⟨assign (joinSegments s.rootDir h.directory id) (some w.next)
        h1.resources, h1.directory⟩ : Handler) s.handlers) = some _ := find?_assign_self _ _ _
    have hf := getFromRoot_nonempty env T
      { s with handlers := assign T (⟨assign (joinSegments s.rootDir h.directory id)
        (some w.next) h1.resources, h1.directory⟩ : Handler) s.handlers }
      (loaded env T (joinSegments s.rootDir h.directory id) w) hlen
    rw [getResource_hit (s := { s with handlers := _ }) _ hT2 (find?_assign_self _ _ _)] at hf
    exact ⟨_, _, _, _, hg, ⟨_, hT2, find?_assign_self _ _ _⟩, hf, by simp [requested],
      by simp [requested]⟩

/-- Witness of C10 on the registry `registered` and the id `"a"`. -/
theorem get_shares_cache_with_getFromRoot_witness :
    Resources.get envOk 0 "a" registered.1 registered.2 =
        some (getFromRoot envOk 0 (joinSegments registered.1.rootDir (Handler.new "d").directory
          "a") registered.1 registered.2) ∧
      (resourceNeedsDefault envOk 0
          (joinSegments registered.1.rootDir (Handler.new "d").directory "a")
          (registered.1, registered.2) = false →
        ∃ r s1 w1 w2,
          Resources.get envOk 0 "a" registered.1 registered.2 = some (r, s1, w1) ∧
          (∃ h1, find? 0 s1.handlers = some h1 ∧
            find? (joinSegments registered.1.rootDir (Handler.new "d").directory "a")
              h1.resources = some r) ∧
          getFromRoot envOk 0 (joinSegments registered.1.rootDir (Handler.new "d").directory "a")
            s1 w1 = (r, s1, w2) ∧
          w2.ctorCalls = w1.ctorCalls ∧ w2.defaultCalls = w1.defaultCalls) :=
  get_shares_cache_with_getFromRoot envOk 0 "a" registered.1 registered.2 (Handler.new "d")
    (by decide) (by decide)

/-! ## The error channel -/

namespace World

@[simp] theorem log_err_errors (w : World) (ps : List String) :
    (w.log Level.err ps).errors = w.errors ++ [ps] := by
  simp [log, errors, List.filterMap_append]

@[simp] theorem log_debug_errors (w : World) (ps : List String) :
    (w.log Level.debug ps).errors = w.errors := by
  simp [log, errors, List.filterMap_append]

@[simp] theorem log_verbose_errors (w : World) (ps : List String) :
    (w.log Level.verbose ps).errors = w.errors := by
  simp [log, errors, List.filterMap_append]

@[simp] theorem log_info_errors (w : World) (ps : List String) :
    (w.log Level.info ps).errors = w.errors := by
  simp [log, errors, List.filterMap_append]

@[simp] theorem emit_destroy_errors (w : World) (o : ObjId) :
    (w.emit (Event.destroy o)).errors = w.errors := by
  simp [emit, errors, List.filterMap_append]

@[simp] theorem alloc_construct_errors (w : World) (T : TypeId) (id : String) (o : ObjId)
    (b : Bool) : (w.alloc (Event.construct T id o b)).errors = w.errors := by
  simp [alloc, errors, List.filterMap_append]

@[simp] theorem alloc_default_errors (w : World) (T : TypeId) (o : ObjId) :
    (w.alloc (Event.constructDefault T o)).errors = w.errors := by
  simp [alloc, errors, List.filterMap_append]

end World

theorem getDefault_errors (env : Env) (T : TypeId) (s : Resources) (w : World) :
    (getDefault env T s w).2.2.errors = w.errors := by
  cases hd : find? T s.defaults with
  | none => simp [getDefault_absent w hd]
  | some d => simp [getDefault_present w hd]

/-- C11 (getFromRoot relative to the root), as stated, fails: on the
registry `registered`, whose root directory is `"r"`, `getFromRoot<0>("a")`
calls the constructor on `"a"` and caches the instance under `"a"`; the id
joined to the root, `"r/a"`, is neither constructed from nor cached. -/
theorem getFromRoot_root_counterexample :
    registered.1.rootDir = "r" ∧ joinSegments "r" "" "a" = "r/a" ∧
      (getFromRoot envOk 0 "a" registered.1 registered.2).2.2.ctorCalls = [(0, "a", 0, true)] ∧
      find? 0 (getFromRoot envOk 0 "a" registered.1 registered.2).2.1.handlers =
        some ⟨[("a", some 0)], "d"⟩ := by
  decide

/-- C11, amended. For a registry with any root directory, a registered
type and a non-empty id, `getFromRoot<T>(id)` is `getResource<T>` on the id
itself: on a miss the constructor is called with `id`, unprefixed, and on
success the new instance is cached under `id`, every other entry being
kept. -/
theorem getFromRoot_verbatim (env : Env) (T : TypeId) (id : String) (s : Resources) (w : World)
    (h : Handler) (hT : find? T s.handlers = some h) (hid : id.length > 0)
    (hp : find? id h.resources = none) :
    ∃ r s1 w1, getFromRoot env T id s w = (r, s1, w1) ∧
      w1.ctorCalls = w.ctorCalls ++ [(T, id, w.next, (env.construct w.next T id).1)] ∧
      ((env.construct w.next T id).1 = true →
        r = some w.next ∧
        ∃ h1, find? T s1.handlers = some h1 ∧ h1.directory = h.directory ∧
          find? id h1.resources = some (some w.next) ∧
          ∀ k, k ≠ id → find? k h1.resources = find? k h.resources) := by
  have h0 := getFromRoot_nonempty env T s w hid
  cases hc : (env.construct w.next T id).1 with
  | false =>
    rw [getResource_fail w hT hp hc] at h0
    refine ⟨(getDefault env T s (failed env T id w)).1, (getDefault env T s (failed env T id w)).2.1,
      (getDefault env T s (failed env T id w)).2.2, h0, ?_, ?_⟩
    · rw [getDefault_ctorCalls]
      simp [failed, requested]
    · intro hf
      simp at hf
  | true =>
    rw [getResource_load w hT hp hc] at h0
    refine ⟨_, _, _, h0, by simp [loaded, requested], fun _ => ⟨rfl,
      ⟨assign id (some w.next) h.resources, h.directory⟩, find?_assign_self _ _ _, rfl,
      find?_assign_self _ _ _, ?_⟩⟩
    intro k hk
    exact find?_assign_ne (Ne.symm hk) _ _

/-- Witness of C11 amended on the registry `registered` and the id `"a"`. -/
theorem getFromRoot_verbatim_witness :
    ∃ r s1 w1, getFromRoot envOk 0 "a" registered.1 registered.2 = (r, s1, w1) ∧
      w1.ctorCalls = registered.2.ctorCalls ++
        [(0, "a", registered.2.next, (envOk.construct registered.2.next 0 "a").1)] ∧
      ((envOk.construct registered.2.next 0 "a").1 = true →
        r = some registered.2.next ∧
        ∃ h1, find? 0 s1.handlers = some h1 ∧ h1.directory = (Handler.new "d").directory ∧
          find? "a" h1.resources = some (some registered.2.next) ∧
          ∀ k, k ≠ "a" → find? k h1.resources = find? k (Handler.new "d").resources) :=
  getFromRoot_verbatim envOk 0 "a" registered.1 registered.2 (Handler.new "d") (by decide)
    (by decide) (by decide)

/-- C14 (unregistered type through getFromRoot). For a type without a
handler and a non-empty id, `getFromRoot<T>(id)` returns the default
instance of `T`, calls no id-taking constructor, logs exactly one message
on the error channel, and leaves the handler map as it was, so `T` is still
unregistered; the root directory is unchanged as well. -/
theorem getFromRoot_unregistered (env : Env) (T : TypeId) (id : String) (s : Resources)
    (w : World) (hT : find? T s.handlers = none) (hid : id.length > 0) :
    ∃ d s1 w1, getFromRoot env T id s w = (some d, s1, w1) ∧
      find? T s1.defaults = some d ∧
      (∀ d0, find? T s.defaults = some d0 → d = d0) ∧
      w1.ctorCalls = w.ctorCalls ∧
      w1.errors = w.errors ++ [["Resource type not initialized!"]] ∧
      s1.handlers = s.handlers ∧ find? T s1.handlers = none ∧ s1.rootDir = s.rootDir := by
  have h0 := getFromRoot_nonempty env T s w hid
  rw [getResource_unregistered id w hT] at h0
  obtain ⟨d, hd1, hd2⟩ := getDefault_returns env T s (missing env T id w)
  refine ⟨d, (getDefault env T s (missing env T id w)).2.1,
    (getDefault env T s (missing env T id w)).2.2, ?_, hd2, ?_, ?_, ?_,
    getDefault_handlers _ _ _ _, ?_, getDefault_rootDir _ _ _ _⟩
  · rw [h0, ← hd1]
  · intro d0 hd0
    rw [getDefault_present _ hd0] at hd1
    exact (Option.some.inj hd1).symm
  · rw [getDefault_ctorCalls]
    simp [missing, requested]
  · rw [getDefault_errors]
    simp [missing, requested]
  · rw [getDefault_handlers]
    exact hT

/-- Witness of C14 on a fresh registry, type `0` and the id `"a"`. -/
theorem getFromRoot_unregistered_witness :
    ∃ d s1 w1,
      getFromRoot envOk 0 "a" (Resources.new "r" World.init).1 (Resources.new "r" World.init).2 =
        (some d, s1, w1) ∧
      find? 0 s1.defaults = some d ∧
      (∀ d0, find? 0 (Resources.new "r" World.init).1.defaults = some d0 → d = d0) ∧
      w1.ctorCalls = (Resources.new "r" World.init).2.ctorCalls ∧
      w1.errors = (Resources.new "r" World.init).2.errors ++
        [["Resource type not initialized!"]] ∧
      s1.handlers = (Resources.new "r" World.init).1.handlers ∧ find? 0 s1.handlers = none ∧
      s1.rootDir = (Resources.new "r" World.init).1.rootDir :=
  getFromRoot_unregistered envOk 0 "a" (Resources.new "r" World.init).1
    (Resources.new "r" World.init).2 (by decide) (by decide)

/-! ## The trace of a load -/

theorem getResource_logged {env : Env} {T : TypeId} {s : Resources} {h : Handler}
    {key : String} (w : World) (hT : find? T s.handlers = some h)
    (hp : find? key h.resources = none) :
    LoadLogged env T key w (getResource env T key s w).1 (getResource env T key s w).2.1
      (getResource env T key s w).2.2 := by
  constructor
  · intro hc
    rw [getResource_fail w hT hp hc]
    cases hd : find? T s.defaults with
    | none =>
      rw [getDefault_absent _ hd]
      refine ⟨_, rfl, find?_assign_self _ _ _, by simp [failed, requested, failureMessage], _,
        ?_, Or.inr rfl⟩
      simp [failed, requested, failureMessage, World.log, World.alloc, World.emit]
    | some d =>
      rw [getDefault_present _ hd]
      refine ⟨d, rfl, hd, by simp [failed, requested, failureMessage], [], ?_, Or.inl rfl⟩
      simp [failed, requested, failureMessage, World.log, World.alloc, World.emit]
  · intro hc
    rw [getResource_load w hT hp hc]
    exact ⟨rfl, by simp [loaded, requested]⟩

/-- C16 (failure is logged with its reason). Let `T` be registered with
handler `h` and `id` be non-empty. A `get<T>(id)` that misses the cache on
the resolved id, and a `getFromRoot<T>(id)` that misses it on `id`, have the
outcome `LoadLogged`: on a failed construction the call returns the default
of `T` after appending to the error channel exactly one message, which
contains the key and the reason; on a successful construction it appends
nothing to the error channel. -/
theorem failure_logged (env : Env) (T : TypeId) (id : String) (s : Resources) (w : World)
    (h : Handler) (hT : find? T s.handlers = some h) (hid : id.length > 0) :
    (find? (resolve s.rootDir h.directory id) h.resources = none →
        ∃ r s1 w1, Resources.get env T id s w = some (r, s1, w1) ∧
          LoadLogged env T (resolve s.rootDir h.directory id) w r s1 w1) ∧
      (find? id h.resources = none →
        ∃ r s1 w1, getFromRoot env T id s w = (r, s1, w1) ∧ LoadLogged env T id w r s1 w1) ∧
      ∀ key, key ∈ failureMessage env T key w ∧
        (env.construct w.next T key).2.getD "reason unknown" ∈ failureMessage env T key w := by
  refine ⟨fun hp => ⟨_, _, _, get_registered env w hT hid, getResource_logged w hT hp⟩,
    fun hp => ⟨_, _, _, getFromRoot_nonempty env T s w hid, getResource_logged w hT hp⟩, ?_⟩
  intro key
  simp [failureMessage]

/-- Witness of C16 on the registry `registered`, with the failing
constructor of `envFail`, and the id `"a"`. -/
theorem failure_logged_witness :
    (find? (resolve registered.1.rootDir (Handler.new "d").directory "a")
          (Handler.new "d").resources = none →
        ∃ r s1 w1, Resources.get envFail 0 "a" registered.1 registered.2 = some (r, s1, w1) ∧
          LoadLogged envFail 0 (resolve registered.1.rootDir (Handler.new "d").directory "a")
            registered.2 r s1 w1) ∧
      (find? "a" (Handler.new "d").resources = none →
        ∃ r s1 w1, getFromRoot envFail 0 "a" registered.1 registered.2 = (r, s1, w1) ∧
          LoadLogged envFail 0 "a" registered.2 r s1 w1) ∧
      ∀ key, key ∈ failureMessage envFail 0 key registered.2 ∧
        (envFail.construct registered.2.next 0 key).2.getD "reason unknown" ∈
          failureMessage envFail 0 key registered.2 :=
  failure_logged envFail 0 "a" registered.1 registered.2 (Handler.new "d") (by decide)
    (by decide)

/-- The error channel after the failed `get<0>("a")` on `registered`. -/
theorem failure_logged_example :
    (Resources.get envFail 0 "a" registered.1 registered.2).map (fun res => res.2.2.errors) =
      some [["Failed to load <", "T", ">: ", "r/d/a", " - ", "missing"]] := by
  decide

/-! ## Type isolation -/

theorem getDefault_untouched (env : Env) {T U : TypeId} (hne : T ≠ U) (s : Resources)
    (w : World) : Untouched U s (getDefault env T s w).2.1 :=
  ⟨by rw [getDefault_handlers], getDefault_other env hne s w, getDefault_rootDir env T s w⟩

theorem getResource_untouched (env : Env) {T U : TypeId} (hne : T ≠ U) (id : String)
    (s : Resources) (w : World) : Untouched U s (getResource env T id s w).2.1 := by
  refine ⟨?_, (getResource_other env hne id s w).1, getResource_rootDir env T id s w⟩
  rcases getResource_cases env T id s w with ⟨_, e⟩ | ⟨_, _, _, _, e⟩ | ⟨_, _, _, _, e⟩ |
    ⟨_, _, _, _, e⟩ <;> rw [e]
  · rw [getDefault_handlers]
  · rw [getDefault_handlers]
  · exact find?_assign_ne hne _ _

/-- C18 (type isolation). For distinct types `T` and `U`,
`initResourceType<T>`, `get<T>(id)` (when it has a result) and
`getFromRoot<T>(id)` leave the handler of `U` (its registration, its
subdirectory and every entry of its cache), the default instance of `U` and
the root directory as they were, and call neither constructor of `U`. -/
theorem type_isolation (env : Env) (T U : TypeId) (hne : T ≠ U) (s : Resources) (w : World) :
    (∀ dir, Untouched U s (initResourceType env T dir s w).1 ∧
        (initResourceType env T dir s w).2.defaultCallsOf U = w.defaultCallsOf U ∧
        (initResourceType env T dir s w).2.ctorCalls = w.ctorCalls) ∧
      (∀ id res, Resources.get env T id s w = some res →
        Untouched U s res.2.1 ∧ res.2.2.defaultCallsOf U = w.defaultCallsOf U ∧
          ∀ c ∈ res.2.2.ctorCalls, c ∈ w.ctorCalls ∨ c.1 = T) ∧
      ∀ id, Untouched U s (getFromRoot env T id s w).2.1 ∧
        (getFromRoot env T id s w).2.2.defaultCallsOf U = w.defaultCallsOf U ∧
        ∀ c ∈ (getFromRoot env T id s w).2.2.ctorCalls, c ∈ w.ctorCalls ∨ c.1 = T := by
  have hdef : ∀ w0 : World, w0.ctorCalls = w.ctorCalls → w0.defaultCalls = w.defaultCalls →
      Untouched U s (getDefault env T s w0).2.1 ∧
        (getDefault env T s w0).2.2.defaultCallsOf U = w.defaultCallsOf U ∧
        ∀ c ∈ (getDefault env T s w0).2.2.ctorCalls, c ∈ w.ctorCalls ∨ c.1 = T := by
    intro w0 h1 h2
    refine ⟨getDefault_untouched env hne s w0, ?_, ?_⟩
    · simp [getDefault_defaultCallsOf, hne, defaultCallsOf_congr h2]
    · intro c hc
      rw [getDefault_ctorCalls, h1] at hc
      exact Or.inl hc
  have hres : ∀ key, Untouched U s (getResource env T key s w).2.1 ∧
      (getResource env T key s w).2.2.defaultCallsOf U = w.defaultCallsOf U ∧
      ∀ c ∈ (getResource env T key s w).2.2.ctorCalls, c ∈ w.ctorCalls ∨ c.1 = T := by
    intro key
    refine ⟨getResource_untouched env hne key s w, (getResource_other env hne key s w).2, ?_⟩
    intro c hc
    rcases getResource_cases env T key s w with ⟨_, e⟩ | ⟨_, _, _, _, e⟩ | ⟨_, _, _, _, e⟩ |
      ⟨_, _, _, _, e⟩ <;> rw [e] at hc
    · rw [getDefault_ctorCalls] at hc
      exact Or.inl (by simpa [missing, requested] using hc)
    · exact Or.inl (by simpa [requested] using hc)
    · rw [getDefault_ctorCalls] at hc
      simp only [failed, requested, World.emit_destroy_ctorCalls, World.log_ctorCalls,
        World.alloc_construct_ctorCalls, List.mem_append, List.mem_singleton] at hc
      rcases hc with hc | rfl
      · exact Or.inl hc
      · exact Or.inr rfl
    · simp only [loaded, requested, World.log_ctorCalls, World.alloc_construct_ctorCalls,
        List.mem_append, List.mem_singleton] at hc
      rcases hc with hc | rfl
      · exact Or.inl hc
      · exact Or.inr rfl
  refine ⟨?_, ?_, ?_⟩
  · intro dir
    exact ⟨⟨find?_assign_ne hne _ _, rfl, rfl⟩, by simp [initResourceType, World.defaultCallsOf],
      by simp [initResourceType]⟩
  · intro id res hg
    have hc : call env (Op.get T id) (s, w) = some res := hg
    rcases call_cases hc with ⟨_, _, ho, _⟩ | ⟨V, ho, rfl⟩ | ⟨V, key, _, rfl, ho⟩
    · cases ho
    · rcases ho with ho | ho <;> cases ho
      exact hdef w rfl rfl
    · rcases ho with ho | ⟨_, _, ho, _⟩ <;> cases ho
      exact hres key
  · intro id
    have hc : call env (Op.getFromRoot T id) (s, w) = some (getFromRoot env T id s w) := rfl
    rcases call_cases hc with ⟨_, _, ho, _⟩ | ⟨V, ho, e⟩ | ⟨V, key, _, e, ho⟩
    · cases ho
    · rcases ho with ho | ho <;> cases ho
      rw [e]
      exact hdef w rfl rfl
    · rcases ho with ho | ⟨_, _, ho, _⟩ <;> cases ho
      rw [e]
      exact hres _

/-- Witness of C18 on the registry `afterOthers`, in which the types `0` and
`1` are both registered, for calls on type `0` and the data of type `1`. -/
theorem type_isolation_witness :
    (∀ dir, Untouched 1 afterOthers.1 (initResourceType envOk 0 dir afterOthers.1
          afterOthers.2).1 ∧
        (initResourceType envOk 0 dir afterOthers.1 afterOthers.2).2.defaultCallsOf 1 =
          afterOthers.2.defaultCallsOf 1 ∧
        (initResourceType envOk 0 dir afterOthers.1 afterOthers.2).2.ctorCalls =
          afterOthers.2.ctorCalls) ∧
      (∀ id res, Resources.get envOk 0 id afterOthers.1 afterOthers.2 = some res →
        Untouched 1 afterOthers.1 res.2.1 ∧
          res.2.2.defaultCallsOf 1 = afterOthers.2.defaultCallsOf 1 ∧
          ∀ c ∈ res.2.2.ctorCalls, c ∈ afterOthers.2.ctorCalls ∨ c.1 = 0) ∧
      ∀ id, Untouched 1 afterOthers.1 (getFromRoot envOk 0 id afterOthers.1 afterOthers.2).2.1 ∧
        (getFromRoot envOk 0 id afterOthers.1 afterOthers.2).2.2.defaultCallsOf 1 =
          afterOthers.2.defaultCallsOf 1 ∧
        ∀ c ∈ (getFromRoot envOk 0 id afterOthers.1 afterOthers.2).2.2.ctorCalls,
          c ∈ afterOthers.2.ctorCalls ∨ c.1 = 0 :=
  type_isolation envOk 0 1 (by decide) afterOthers.1 afterOthers.2

/-! ## Handler<T> on its own -/

namespace Handler

theorem store_resources (h : Handler) (id : String) (p : Ptr) :
    (h.store id p).resources = assign id p h.resources := by
  cases hp : find? id h.resources with
  | none => rw [store_of_absent hp]
  | some q => simp [store, index, hp]

theorem index_of_exists {h : Handler} {id : String} (he : h.resourceExists id = true) :
    (h.index id).1 = h := by
  obtain ⟨p, hp⟩ := Option.isSome_iff_exists.1 he
  rw [index_of_find? hp]

/-- When every raw access is made on a present id, no entry is null. -/
theorem run_nonNull (ops : List HandlerOp) :
    ∀ h : Handler, (∀ id p, find? id h.resources = some p → p ≠ none) →
      h.accessesPresent ops = true →
      (∀ id p, find? id (h.run ops).resources = some p → p ≠ none) ∧
        ∀ id, (h.run ops).resourceExists id = true → ((h.run ops).index id).1 = h.run ops := by
  induction ops with
  | nil =>
    intro h hn _
    exact ⟨hn, fun id he => index_of_exists he⟩
  | cons op ops ih =>
    intro h hn hg
    cases op with
    | access id =>
      simp only [accessesPresent, Bool.and_eq_true] at hg
      have hsame : h.apply (HandlerOp.access id) = h := index_of_exists hg.1
      have := ih (h.apply (HandlerOp.access id)) (by rw [hsame]; exact hn) hg.2
      simpa [run] using this
    | store id obj =>
      simp only [accessesPresent] at hg
      have hn1 : ∀ k p, find? k (h.apply (HandlerOp.store id obj)).resources = some p →
          p ≠ none := by
        intro k p hk
        simp only [apply, store_resources] at hk
        by_cases hik : id = k
        · subst hik
          rw [find?_assign_self] at hk
          rw [← Option.some.inj hk]
          simp
        · rw [find?_assign_ne hik] at hk
          exact hn k p hk
      have := ih (h.apply (HandlerOp.store id obj)) hn1 hg
      simpa [run] using this

end Handler

/-- C15 (no null entry for a present id), as stated, fails: on a new
`Handler` the raw access `h["a"]` default-inserts the entry of `"a"`, after
which `resourceExists("a")` is true and the entry `h["a"]` is `nullptr`. -/
theorem handler_null_entry_counterexample :
    ((Handler.new "d").run [HandlerOp.access "a"]).resourceExists "a" = true ∧
      (((Handler.new "d").run [HandlerOp.access "a"]).index "a").2 = none := by
  decide

/-- C15, amended. In every `Handler` state reached from its construction
through assignments of non-null instances `h[id] = p` and raw accesses
`h[id]` made only on ids that are present, `resourceExists(id)` implies that
the entry returned by `h[id]` is non-null, and that access leaves the
handler as it is. -/
theorem handler_entries_non_null (dir : String) (ops : List HandlerOp)
    (hops : (Handler.new dir).accessesPresent ops = true) (id : String)
    (he : ((Handler.new dir).run ops).resourceExists id = true) :
    (∃ obj, (((Handler.new dir).run ops).index id).2 = some obj) ∧
      (((Handler.new dir).run ops).index id).1 = (Handler.new dir).run ops := by
  have hnew : ∀ k p, find? k (Handler.new dir).resources = some p → p ≠ none := by
    intro k p hk
    simp [Handler.new, find?] at hk
  obtain ⟨hn, hi⟩ := Handler.run_nonNull ops (Handler.new dir) hnew hops
  obtain ⟨p, hp⟩ := Option.isSome_iff_exists.1 he
  refine ⟨?_, hi id he⟩
  rw [Handler.index_of_find? hp]
  cases p with
  | none => exact absurd rfl (hn id none hp)
  | some obj => exact ⟨obj, rfl⟩

/-- Witness of C15 amended: `h["a"] = 7`, then the access `h["a"]`. -/
theorem handler_entries_non_null_witness :
    (∃ obj, (((Handler.new "d").run [HandlerOp.store "a" 7, HandlerOp.access "a"]).index
        "a").2 = some obj) ∧
      (((Handler.new "d").run [HandlerOp.store "a" 7, HandlerOp.access "a"]).index "a").1 =
        (Handler.new "d").run [HandlerOp.store "a" 7, HandlerOp.access "a"] :=
  handler_entries_non_null "d" [HandlerOp.store "a" 7, HandlerOp.access "a"] (by decide) "a"
    (by decide)

/-! ## Repeated failing loads -/

/-- One `get<T>(id)` whose construction fails: the constructor is called
once, nothing is cached, and at most two objects are allocated. -/
theorem get_fail_step {env : Env} {T : TypeId} {id : String} {st : Resources × World}
    {h : Handler} (hT : find? T st.1.handlers = some h) (hid : id.length > 0)
    (hp : find? (resolve st.1.rootDir h.directory id) h.resources = none)
    (hc : (env.construct st.2.next T (resolve st.1.rootDir h.directory id)).1 = false) :
    ∃ st1, step env (Op.get T id) st = some st1 ∧
      st1.1.handlers = st.1.handlers ∧ st1.1.rootDir = st.1.rootDir ∧
      st.2.next + 1 ≤ st1.2.next ∧ st1.2.next ≤ st.2.next + 2 ∧
      st1.2.ctorCalls = st.2.ctorCalls ++
        [(T, resolve st.1.rootDir h.directory id, st.2.next, false)] := by
  have hg := get_registered env st.2 hT hid
  rw [getResource_fail st.2 hT hp hc] at hg
  refine ⟨(getDefault env T st.1 (failed env T (resolve st.1.rootDir h.directory id) st.2)).2,
    by simp [step, call, hg], getDefault_handlers _ _ _ _, getDefault_rootDir _ _ _ _,
    ?_, ?_, ?_⟩
  · cases hd : find? T st.1.defaults with
    | none => simp [getDefault_absent _ hd, failed, requested]
    | some d => simp [getDefault_present _ hd, failed, requested]
  · cases hd : find? T st.1.defaults with
    | none => simp [getDefault_absent _ hd, failed, requested]
    | some d => simp [getDefault_present _ hd, failed, requested]
  · rw [getDefault_ctorCalls]
    simp [failed, requested]

/-- The outcome of `n` consecutive failing `get<T>(id)`. -/
theorem get_fail_repeat {env : Env} {T : TypeId} {id : String} (key : String) (h : Handler)
    (hid : id.length > 0) (hp : find? key h.resources = none) (n : Nat) :
    ∀ st : Resources × World, find? T st.1.handlers = some h →
      key = resolve st.1.rootDir h.directory id →
      (∀ m, st.2.next ≤ m → m < st.2.next + 2 * n → (env.construct m T key).1 = false) →
      ∃ stn calls, run env (List.replicate n (Op.get T id)) st = some stn ∧
        stn.1.handlers = st.1.handlers ∧ stn.1.rootDir = st.1.rootDir ∧
        stn.2.ctorCalls = st.2.ctorCalls ++ calls ∧ calls.length = n ∧
        ∀ c ∈ calls, c.1 = T ∧ c.2.1 = key ∧ c.2.2.2 = false := by
  induction n with
  | zero =>
    intro st _ _ _
    exact ⟨st, [], rfl, rfl, rfl, by simp, rfl, by simp⟩
  | succ n ih =>
    intro st hT hk hfail
    subst hk
    obtain ⟨st1, hs, hh, hroot, hlo, hhi, hcalls⟩ :=
      get_fail_step hT hid hp (hfail st.2.next (le_refl _)
        (Nat.lt_add_of_pos_right (Nat.mul_pos (by decide) (Nat.succ_pos n))))
    obtain ⟨stn, calls, hr, hh2, hroot2, hcalls2, hlen, hall⟩ :=
      ih st1 (by rw [hh]; exact hT) (by rw [hroot])
        (fun m h1 h2 => hfail m (le_trans (le_trans (Nat.le_succ _) hlo) h1)
          (lt_of_lt_of_le h2 (by
            have h3 : st1.2.next + 2 * n ≤ st.2.next + 2 + 2 * n := Nat.add_le_add_right hhi _
            have h4 : st.2.next + 2 + 2 * n = st.2.next + 2 * (n + 1) := by ring
            exact h4 ▸ h3)))
    refine ⟨stn, (T, resolve st.1.rootDir h.directory id, st.2.next, false) :: calls, ?_,
      hh2.trans hh, hroot2.trans hroot, ?_, by simp [hlen], ?_⟩
    · simp [List.replicate_succ, run, hs, hr]
    · rw [hcalls2, hcalls]
      simp
    · intro c hc
      rcases List.mem_cons.1 hc with rfl | hc
      · exact ⟨rfl, rfl, rfl⟩
      · exact hall c hc

/-- C17 (failed loads are not memoized). Let `T` be registered, `id` be
non-empty and its resolved id `key` not be cached, and let the construction
of `key` fail at every time until `2 * n` further objects have been
allocated (a failing call allocates the discarded instance and, the first
time, the default). Then `n` consecutive `get<T>(id)` calls have a result and
add exactly `n` constructor calls, all on `key` and all failed, and cache
nothing. If the construction then succeeds, the next `get<T>(id)` calls the
constructor once more, caches the new instance and returns it, and after any
further sequence of calls without `initResourceType<T>` the call
`get<T>(id)` returns that instance without constructing. -/
theorem failed_loads_not_memoized (env : Env) (T : TypeId) (id : String)
    (st : Resources × World) (h : Handler) (n : Nat)
    (hT : find? T st.1.handlers = some h) (hid : id.length > 0)
    (hp : find? (resolve st.1.rootDir h.directory id) h.resources = none)
    (hfail : ∀ m, st.2.next ≤ m → m < st.2.next + 2 * n →
      (env.construct m T (resolve st.1.rootDir h.directory id)).1 = false) :
    ∃ stn calls, run env (List.replicate n (Op.get T id)) st = some stn ∧
      stn.1.handlers = st.1.handlers ∧
      stn.2.ctorCalls = st.2.ctorCalls ++ calls ∧ calls.length = n ∧
      (∀ c ∈ calls, c.1 = T ∧ c.2.1 = resolve st.1.rootDir h.directory id ∧ c.2.2.2 = false) ∧
      ((env.construct stn.2.next T (resolve st.1.rootDir h.directory id)).1 = true →
        ∃ s1 w1, Resources.get env T id stn.1 stn.2 = some (some stn.2.next, s1, w1) ∧
          w1.ctorCalls = stn.2.ctorCalls ++
            [(T, resolve st.1.rootDir h.directory id, stn.2.next, true)] ∧
          (∃ h1, find? T s1.handlers = some h1 ∧
            find? (resolve st.1.rootDir h.directory id) h1.resources =
              some (some stn.2.next)) ∧
          ∀ ops st2, (∀ dir, Op.initResourceType T dir ∉ ops) →
            run env ops (s1, w1) = some st2 →
            ∃ w3, Resources.get env T id st2.1 st2.2 = some (some stn.2.next, st2.1, w3) ∧
              w3.ctorCalls = st2.2.ctorCalls) := by
  obtain ⟨stn, calls, hr, hh, hroot, hcalls, hlen, hall⟩ :=
    get_fail_repeat (resolve st.1.rootDir h.directory id) h hid hp n st hT rfl hfail
  refine ⟨stn, calls, hr, hh, hcalls, hlen, hall, ?_⟩
  intro hok
  have hTn : find? T stn.1.handlers = some h := by rw [hh]; exact hT
  have hg := get_registered env stn.2 hTn hid
  rw [hroot, getResource_load stn.2 hTn hp hok] at hg
  have hT1 : find? T (assign T (⟨assign (resolve st.1.rootDir h.directory id) (some stn.2.next)
      h.resources, h.directory⟩ : Handler) stn.1.handlers) = some _ := find?_assign_self _ _ _
  refine ⟨_, _, hg, by simp [loaded, requested], ⟨_, hT1, find?_assign_self _ _ _⟩, ?_⟩
  intro ops st2 hops hr2
  obtain ⟨h2, h2T, h2d, h2p⟩ := run_keeps_entry ops hops hT1 (find?_assign_self _ _ _) hr2
  have hroot2 : st2.1.rootDir = st.1.rootDir := (run_keeps_rootDir ops hr2).trans hroot
  have hg2 := get_registered env st2.2 h2T hid
  simp only [h2d] at hg2
  rw [hroot2, getResource_hit st2.2 h2T h2p] at hg2
  exact ⟨_, hg2, by simp [requested]⟩

/-- Witness of C17: one failing `get<0>("a")` on the registry `registered`
with the constructor of `envLate`, which succeeds on the next attempt. -/
theorem failed_loads_not_memoized_witness :
    ∃ stn calls, run envLate (List.replicate 1 (Op.get 0 "a")) registered = some stn ∧
      stn.1.handlers = registered.1.handlers ∧
      stn.2.ctorCalls = registered.2.ctorCalls ++ calls ∧ calls.length = 1 ∧
      (∀ c ∈ calls, c.1 = 0 ∧
        c.2.1 = resolve registered.1.rootDir (Handler.new "d").directory "a" ∧
        c.2.2.2 = false) ∧
      ((envLate.construct stn.2.next 0
          (resolve registered.1.rootDir (Handler.new "d").directory "a")).1 = true →
        ∃ s1 w1, Resources.get envLate 0 "a" stn.1 stn.2 = some (some stn.2.next, s1, w1) ∧
          w1.ctorCalls = stn.2.ctorCalls ++
            [(0, resolve registered.1.rootDir (Handler.new "d").directory "a", stn.2.next,
              true)] ∧
          (∃ h1, find? 0 s1.handlers = some h1 ∧
            find? (resolve registered.1.rootDir (Handler.new "d").directory "a") h1.resources =
              some (some stn.2.next)) ∧
          ∀ ops st2, (∀ dir, Op.initResourceType 0 dir ∉ ops) →
            run envLate ops (s1, w1) = some st2 →
            ∃ w3, Resources.get envLate 0 "a" st2.1 st2.2 = some (some stn.2.next, st2.1, w3) ∧
              w3.ctorCalls = st2.2.ctorCalls) :=
  failed_loads_not_memoized envLate 0 "a" registered (Handler.new "d") 1 (by decide)
    (by decide) (by decide)
    (fun m _ h2 => by
      have h3 : m < 2 := h2
      simp [envLate, h3])

/-- With the constructor of `envLate`, three `get<0>("a")` on `registered`
call the constructor at the times `0` (failure), `2` (success) and not at
all; the second and the third call return the instance `2`. -/
theorem failed_then_loaded_example :
    (run envLate [Op.get 0 "a", Op.get 0 "a", Op.get 0 "a"] registered).map
        (fun st => st.2.ctorCalls) =
      some [(0, "r/d/a", 0, false), (0, "r/d/a", 2, true)] ∧
    ((run envLate [Op.get 0 "a", Op.get 0 "a"] registered).bind
        fun st => (Resources.get envLate 0 "a" st.1 st.2).map Prod.fst) = some (some 2) := by
  decide

/-! ## Gen: whitespace -/

namespace Gen

theorem dropWhile_of_head {p : Char → Bool} {l : List Char}
    (h : ∀ c, l.head? = some c → p c = false) : l.dropWhile p = l := by
  cases l with
  | nil => rfl
  | cons a l => simp [List.dropWhile, h a rfl]

theorem rdropWhile_of_getLast {p : Char → Bool} {l : List Char}
    (h : ∀ c, l.getLast? = some c → p c = false) : l.rdropWhile p = l := by
  rw [List.rdropWhile_eq_self_iff]
  intro hl
  have := h (l.getLast hl) (List.getLast?_eq_getLast _ hl)
  simp [this]

theorem trim_eq_self {l : List Char} (h1 : ∀ c, l.head? = some c → c.isWhitespace = false)
    (h2 : ∀ c, l.getLast? = some c → c.isWhitespace = false) : trim l = l := by
  rw [trim, dropWhile_of_head h1, rdropWhile_of_getLast h2]

theorem head_dropWhile {p : Char → Bool} (l : List Char) :
    ∀ c, (l.dropWhile p).head? = some c → p c = false := by
  intro c hc
  induction l with
  | nil => simp at hc
  | cons a l ih =>
    by_cases ha : p a = true
    · simp only [List.dropWhile, ha] at hc
      exact ih hc
    · simp only [List.dropWhile, ha] at hc
      simp at hc
      subst hc
      simpa using ha

theorem getLast_rdropWhile {p : Char → Bool} (l : List Char) :
    ∀ c, (l.rdropWhile p).getLast? = some c → p c = false := by
  intro c hc
  have hne : l.rdropWhile p ≠ [] := by
    intro h
    simp [h] at hc
  have := List.rdropWhile_last_not p l hne
  rw [List.getLast?_eq_getLast _ hne] at hc
  simp only [Option.some.injEq] at hc
  rw [← hc]
  simpa using this

theorem head_rdropWhile {p : Char → Bool} (l : List Char) :
    ∀ c, (l.rdropWhile p).head? = some c → l.head? = some c := by
  intro c hc
  obtain ⟨t, ht⟩ := List.rdropWhile_prefix p l
  rw [← ht]
  cases h : l.rdropWhile p with
  | nil => simp [h] at hc
  | cons a r =>
    rw [h] at hc
    simpa using hc

theorem trim_head (l : List Char) : ∀ c, (trim l).head? = some c → c.isWhitespace = false := by
  intro c hc
  exact head_dropWhile l c (head_rdropWhile _ c hc)

theorem trim_getLast (l : List Char) :
    ∀ c, (trim l).getLast? = some c → c.isWhitespace = false :=
  getLast_rdropWhile _

theorem trim_trim (l : List Char) : trim (trim l) = trim l :=
  trim_eq_self (trim_head l) (trim_getLast l)

theorem mem_of_mem_trim {l : List Char} {c : Char} (h : c ∈ trim l) : c ∈ l := by
  have h1 : c ∈ l.dropWhile Char.isWhitespace :=
    (List.rdropWhile_prefix Char.isWhitespace _).subset h
  exact (List.dropWhile_suffix _).subset h1

/-- Trimming keeps a last character that is not whitespace. -/
theorem getLast_trim {l : List Char} {c : Char} (h : l.getLast? = some c)
    (hc : c.isWhitespace = false) : (trim l).getLast? = some c := by
  have hd : (l.dropWhile Char.isWhitespace).getLast? = some c := by
    induction l with
    | nil => simp at h
    | cons a l ih =>
      by_cases ha : a.isWhitespace = true
      · simp only [List.dropWhile, ha]
        cases l with
        | nil =>
          simp at h
          subst h
          simp [hc] at ha
        | cons b l =>
          apply ih
          simpa [List.getLast?_cons_cons] using h
      · simp only [List.dropWhile, ha]
        exact h
  rw [trim, rdropWhile_of_getLast]
  · exact hd
  · intro d hd2
    rw [hd] at hd2
    simp at hd2
    subst hd2
    exact hc

end Gen

/-! ## Gen: lines -/

namespace Gen

theorem splitLines_ne_nil (cs : List Char) : splitLines cs ≠ [] := by
  cases cs with
  | nil => simp [splitLines]
  | cons c cs =>
    by_cases hc : c = '\n'
    · simp [splitLines, hc]
    · simp only [splitLines, hc, if_false]
      cases splitLines cs <;> simp

theorem splitLines_append (l rest : List Char) (hl : '\n' ∉ l) :
    splitLines (l ++ '\n' :: rest) = l :: splitLines rest := by
  induction l with
  | nil => simp [splitLines]
  | cons c l ih =>
    have hc : c ≠ '\n' := fun h => hl (by simp [h])
    have hl1 : '\n' ∉ l := fun h => hl (List.mem_cons_of_mem _ h)
    simp [splitLines, hc, ih hl1]

theorem splitLines_unlines (ls : List (List Char)) (h : ∀ l ∈ ls, '\n' ∉ l) :
    splitLines (unlines ls) = ls ++ [[]] := by
  induction ls with
  | nil => rfl
  | cons l ls ih =>
    rw [unlines, splitLines_append l _ (h l (List.mem_cons_self _ _)),
      ih (fun x hx => h x (List.mem_cons_of_mem _ hx))]
    rfl

theorem splitLines_no_newline (cs : List Char) : ∀ l ∈ splitLines cs, '\n' ∉ l := by
  induction cs with
  | nil => simp [splitLines]
  | cons c cs ih =>
    by_cases hc : c = '\n'
    · intro l hl
      simp only [splitLines, hc, if_true, List.mem_cons] at hl
      rcases hl with rfl | hl
      · simp
      · exact ih l hl
    · intro l hl
      simp only [splitLines, hc, if_false] at hl
      cases hs : splitLines cs with
      | nil => exact absurd hs (splitLines_ne_nil cs)
      | cons l0 ls =>
        rw [hs] at hl ih
        simp only [List.mem_cons] at hl
        rcases hl with rfl | hl
        · intro hm
          rcases List.mem_cons.1 hm with h1 | h1
          · exact hc h1.symm
          · exact ih l0 (List.mem_cons_self _ _) h1
        · exact ih l (List.mem_cons_of_mem _ hl)

end Gen

/-! ## Gen: reading back the line of an entry -/

namespace Gen

theorem splitEntry_body {k v : String} (hk : KeyOk k) (hv : ValueOk v) :
    splitEntry (k.data ++ ':' :: v.data) = (k, v) := by
  have h1 : ∀ a ∈ k.data, (a != ':') = true := by
    intro a ha
    simp only [bne_iff_ne, ne_eq]
    rintro rfl
    exact hk.1 ha
  simp only [splitEntry, List.takeWhile_append_of_pos h1, List.dropWhile_append_of_pos h1]
  simp [List.takeWhile, List.dropWhile, hk.2.2, hv.2]

theorem body_head {k v : String} (hk : KeyOk k) :
    ∀ c, (k.data ++ ':' :: v.data).head? = some c → c.isWhitespace = false := by
  intro c hc
  cases hd : k.data with
  | nil =>
    rw [hd] at hc
    simp at hc
    subst hc
    decide
  | cons a r =>
    rw [hd] at hc
    simp at hc
    subst hc
    apply trim_head k.data
    rw [hk.2.2, hd]
    rfl

theorem line_getLast {k v : String} (hv : ValueOk v) (br : List Char)
    (hbr : br = [] ∨ br = ['{']) :
    ∀ c, ((k.data ++ ':' :: v.data) ++ br).getLast? = some c → c.isWhitespace = false := by
  intro c hc
  rcases hbr with rfl | rfl
  · rw [List.append_nil] at hc
    cases hd : v.data with
    | nil =>
      rw [hd] at hc
      simp at hc
      subst hc
      decide
    | cons a r =>
      rw [hd, List.getLast?_append_of_ne_nil _ (by simp)] at hc
      rw [List.getLast?_cons_cons] at hc
      apply trim_getLast v.data
      rw [hv.2, hd]
      exact hc
  · rw [List.getLast?_concat, Option.some.injEq] at hc
    subst hc
    decide

theorem body_getLast {k v : String} (hne : v.data.getLast? ≠ some '{') :
    (k.data ++ ':' :: v.data).getLast? ≠ some '{' := by
  cases hd : v.data with
  | nil => simp
  | cons a r =>
    rw [List.getLast?_append_of_ne_nil _ (by simp), List.getLast?_cons_cons, ← hd]
    exact hne

/-- The parser reads the line of an entry back as that entry. -/
theorem parseLine_entryLine {k v : String} (opens : Bool) (hk : KeyOk k) (hv : ValueOk v)
    (hne : opens = false → v.data.getLast? ≠ some '{') :
    parseLine (entryLine k v opens) = Line.entry k v opens := by
  have hbody : trim (k.data ++ ':' :: v.data) = k.data ++ ':' :: v.data :=
    trim_eq_self (body_head hk) (by
      have h := line_getLast (k := k) hv [] (Or.inl rfl)
      rw [List.append_nil] at h
      exact h)
  have hmem : ':' ∈ k.data ++ ':' :: v.data := by simp
  cases opens with
  | false =>
    have hline : entryLine k v false = k.data ++ ':' :: v.data := by simp [entryLine]
    have h3 := body_getLast (k := k) (hne rfl)
    rw [hline, parseLine, hbody, splitEntry_body hk hv]
    rw [if_neg, if_neg, if_neg h3]
    · intro h
      rw [h] at hmem
      simp at hmem
    · intro h
      rw [h] at hmem
      simp at hmem
  | true =>
    have hline : entryLine k v true = (k.data ++ ':' :: v.data) ++ ['{'] := by simp [entryLine]
    have htrim : trim ((k.data ++ ':' :: v.data) ++ ['{']) = (k.data ++ ':' :: v.data) ++ ['{'] :=
      trim_eq_self (by
        intro c hc
        apply body_head (v := v) hk c
        rw [List.head?_append_of_ne_nil _ (by simp)] at hc
        exact hc) (line_getLast hv ['{'] (Or.inr rfl))
    rw [hline, parseLine, htrim, List.dropLast_concat, hbody, splitEntry_body hk hv]
    rw [if_neg, if_neg, if_pos (List.getLast?_concat _)]
    · intro h
      have : ':' ∈ (k.data ++ ':' :: v.data) ++ ['{'] := by simp
      rw [h] at this
      simp at this
    · simp

theorem parseLine_close : parseLine ['}'] = Line.close := by
  decide

theorem parseLine_nil : parseLine [] = Line.blank := by
  decide

theorem entryLine_no_newline {k v : String} (opens : Bool) (hk : KeyOk k) (hv : ValueOk v) :
    '\n' ∉ entryLine k v opens := by
  intro h
  simp only [entryLine, List.mem_append, List.mem_cons] at h
  rcases h with (h | h | h) | h
  · exact hk.2.1 h
  · exact absurd h (by decide)
  · exact hv.1 h
  · cases opens
    · simp at h
    · simp at h

end Gen

/-! ## Gen: reading back the lines of a tree -/

namespace Gen

theorem append_nil (g : Gen) : g.append nil = g := by
  induction g with
  | nil => rfl
  | leaf k v rest ih => simp [append, ih]
  | node k v s rest _ ih => simp [append, ih]

theorem getKeys_append (a b : Gen) : (a.append b).getKeys = a.getKeys ++ b.getKeys := by
  induction a with
  | nil => rfl
  | leaf k v rest ih => simp [append, getKeys, ih]
  | node k v s rest _ ih => simp [append, getKeys, ih]

theorem getKeys_entry (k v : String) (sub : Option Gen) (rest : Gen) :
    (entry k v sub rest).getKeys = k :: rest.getKeys := by
  cases sub <;> rfl

theorem append_entry (g : Gen) (k v : String) (sub : Option Gen) (rest : Gen) :
    (g.append (entry k v sub nil)).append rest = g.append (entry k v sub rest) := by
  induction g with
  | nil => cases sub <;> rfl
  | leaf k0 v0 r ih => simp [append, ih]
  | node k0 v0 s r _ ih => simp [append, ih]

/-- Assigning to a key the tree does not have adds the entry at the end. -/
theorem set_of_not_mem {g : Gen} {k : String} (v : String) (sub : Option Gen)
    (h : k ∉ g.getKeys) : g.set k v sub = g.append (entry k v sub nil) := by
  induction g with
  | nil => rfl
  | leaf k0 v0 r ih =>
    simp only [getKeys, List.mem_cons, not_or] at h
    simp [set, append, Ne.symm h.1, ih h.2]
  | node k0 v0 s r _ ih =>
    simp only [getKeys, List.mem_cons, not_or] at h
    simp [set, append, Ne.symm h.1, ih h.2]

theorem parseLines_blank {l : List Char} (ls : List (List Char)) (cur : Gen)
    (stack : List (Gen × String × String)) (h : parseLine l = Line.blank) :
    parseLines (l :: ls) cur stack = parseLines ls cur stack := by
  simp [parseLines, h]

theorem parseLines_leaf {l : List Char} {k v : String} (ls : List (List Char)) (cur : Gen)
    (stack : List (Gen × String × String)) (h : parseLine l = Line.entry k v false) :
    parseLines (l :: ls) cur stack = parseLines ls (cur.set k v none) stack := by
  simp [parseLines, h]

theorem parseLines_open {l : List Char} {k v : String} (ls : List (List Char)) (cur : Gen)
    (stack : List (Gen × String × String)) (h : parseLine l = Line.entry k v true) :
    parseLines (l :: ls) cur stack = parseLines ls nil ((cur, k, v) :: stack) := by
  simp [parseLines, h]

theorem parseLines_close {l : List Char} (ls : List (List Char)) (cur parent : Gen)
    (k v : String) (stack : List (Gen × String × String)) (h : parseLine l = Line.close) :
    parseLines (l :: ls) cur ((parent, k, v) :: stack) =
      parseLines ls (parent.set k v (some cur)) stack := by
  simp [parseLines, h]

theorem parseLines_stray {l : List Char} (ls : List (List Char)) (cur : Gen)
    (h : parseLine l = Line.close) : parseLines (l :: ls) cur [] = none := by
  simp [parseLines, h]

theorem lines_no_newline {t : Gen} (h : t.WellFormed) : ∀ l ∈ lines t, '\n' ∉ l := by
  induction t with
  | nil => simp [lines]
  | leaf k v rest ih =>
    obtain ⟨hk, hv, _, _, hr⟩ := h
    intro l hl
    simp only [lines, List.mem_cons] at hl
    rcases hl with rfl | hl
    · exact entryLine_no_newline false hk hv
    · exact ih hr l hl
  | node k v sub rest ihs ih =>
    obtain ⟨hk, hv, hs, _, hr⟩ := h
    intro l hl
    simp only [lines, List.mem_cons, List.mem_append] at hl
    rcases hl with rfl | hl | rfl | hl
    · exact entryLine_no_newline true hk hv
    · exact ihs hs l hl
    · decide
    · exact ih hr l hl

/-- The parser, run on the lines of a well-formed tree whose keys are new to
the tree being filled, adds the entries of that tree. -/
theorem parseLines_lines (t : Gen) (h : t.WellFormed) :
    ∀ (more : List (List Char)) (cur : Gen) (stack : List (Gen × String × String)),
      (∀ x ∈ t.getKeys, x ∉ cur.getKeys) →
      parseLines (lines t ++ more) cur stack = parseLines more (cur.append t) stack := by
  induction t with
  | nil =>
    intro more cur stack _
    simp [lines, append_nil]
  | leaf k v rest ih =>
    obtain ⟨hk, hv, hb, hnk, hr⟩ := h
    intro more cur stack hd
    have hkc : k ∉ cur.getKeys := hd k (by simp [getKeys])
    show parseLines (entryLine k v false :: (lines rest ++ more)) cur stack = _
    rw [parseLines_leaf _ _ _ (parseLine_entryLine false hk hv (fun _ => hb)),
      set_of_not_mem v none hkc, ih hr, append_entry]
    · rfl
    · intro x hx
      rw [getKeys_append, getKeys_entry]
      simp only [getKeys, List.mem_append, List.mem_cons, List.not_mem_nil, or_false, not_or]
      exact ⟨hd x (by simp [getKeys, hx]), fun hxk => hnk (hxk ▸ hx)⟩
  | node k v sub rest ihs ih =>
    obtain ⟨hk, hv, hs, hnk, hr⟩ := h
    intro more cur stack hd
    have hkc : k ∉ cur.getKeys := hd k (by simp [getKeys])
    have hl : lines (node k v sub rest) ++ more =
        entryLine k v true :: (lines sub ++ (['}'] :: (lines rest ++ more))) := by
      simp [lines]
    rw [hl, parseLines_open _ _ _ (parseLine_entryLine true hk hv (fun hf => by simp at hf)),
      ihs hs _ nil _ (fun x _ => by simp [getKeys]), parseLines_close _ _ _ _ _ _ parseLine_close,
      set_of_not_mem v (some (nil.append sub)) hkc, ih hr, append_entry]
    · rfl
    · intro x hx
      rw [getKeys_append, getKeys_entry]
      simp only [getKeys, List.mem_append, List.mem_cons, List.not_mem_nil, or_false, not_or]
      exact ⟨hd x (by simp [getKeys, hx]), fun hxk => hnk (hxk ▸ hx)⟩

/-- A well-formed tree is read back from its serialization. -/
theorem consume_toString_of_wellFormed {t : Gen} (h : t.WellFormed) :
    consume nil (toString t) = some t := by
  simp only [consume, toString]
  rw [splitLines_unlines _ (lines_no_newline h), parseLines_lines t h _ nil [] (by simp [getKeys])]
  rw [parseLines_blank _ _ _ parseLine_nil]
  rfl

end Gen

/-! ## Gen: the trees the parser builds -/

namespace Gen

theorem splitEntry_ok (b : List Char) (hnl : '\n' ∉ b) :
    KeyOk (splitEntry b).1 ∧ ValueOk (splitEntry b).2 := by
  refine ⟨⟨?_, ?_, trim_trim _⟩, ?_, trim_trim _⟩
  · intro h
    have h1 := List.mem_takeWhile_imp (mem_of_mem_trim h)
    simp at h1
  · intro h
    exact hnl ((List.takeWhile_prefix _).subset (mem_of_mem_trim h))
  · intro h
    exact hnl ((List.dropWhile_suffix _).subset ((List.drop_suffix _ _).subset
      (mem_of_mem_trim h)))

theorem splitEntry_value_getLast {t : List Char}
    (hws : ∀ c, t.getLast? = some c → c.isWhitespace = false) (hb : t.getLast? ≠ some '{') :
    (splitEntry t).2.data.getLast? ≠ some '{' := by
  show (trim ((t.dropWhile fun c => c != ':').drop 1)).getLast? ≠ some '{'
  have hsuf : ((t.dropWhile fun c => c != ':').drop 1) <:+ t :=
    (List.drop_suffix _ _).trans (List.dropWhile_suffix _)
  obtain ⟨p, hp⟩ := hsuf
  cases hs : (t.dropWhile fun c => c != ':').drop 1 with
  | nil => simp [trim]
  | cons a r =>
    rw [hs] at hp
    have hlast : t.getLast? = (a :: r).getLast? := by
      rw [← hp, List.getLast?_append_of_ne_nil _ (by simp)]
    obtain ⟨c, hc⟩ : ∃ c, (a :: r).getLast? = some c :=
      ⟨(a :: r).getLast (by simp), List.getLast?_eq_getLast _ _⟩
    rw [getLast_trim hc (hws c (hlast.trans hc))]
    rw [hlast, hc] at hb
    exact hb

/-- What the parser reads from a line without newline is as `WellFormed`
asks. -/
theorem parseLine_ok {l : List Char} {k v : String} {opens : Bool} (hnl : '\n' ∉ l)
    (h : parseLine l = Line.entry k v opens) :
    KeyOk k ∧ ValueOk v ∧ (opens = false → v.data.getLast? ≠ some '{') := by
  have hnt : '\n' ∉ trim l := fun hm => hnl (mem_of_mem_trim hm)
  unfold parseLine at h
  split_ifs at h with h1 h2 h3
  · simp only [Line.entry.injEq] at h
    obtain ⟨rfl, rfl, rfl⟩ := h
    have hnb : '\n' ∉ trim (trim l).dropLast :=
      fun hm => hnt ((List.dropLast_subset _) (mem_of_mem_trim hm))
    exact ⟨(splitEntry_ok _ hnb).1, (splitEntry_ok _ hnb).2, fun hf => by simp at hf⟩
  · simp only [Line.entry.injEq] at h
    obtain ⟨rfl, rfl, rfl⟩ := h
    exact ⟨(splitEntry_ok _ hnt).1, (splitEntry_ok _ hnt).2,
      fun _ => splitEntry_value_getLast (trim_getLast l) h3⟩

theorem mem_getKeys_set (g : Gen) (k v : String) (sub : Option Gen) (x : String) :
    x ∈ (g.set k v sub).getKeys ↔ x ∈ g.getKeys ∨ x = k := by
  induction g with
  | nil => simp [set, getKeys_entry, getKeys]
  | leaf k0 v0 r ih =>
    by_cases hk : k0 = k
    · subst hk
      simp [set, getKeys_entry, getKeys]
      tauto
    · simp [set, hk, getKeys, ih]
      tauto
  | node k0 v0 s r _ ih =>
    by_cases hk : k0 = k
    · subst hk
      simp [set, getKeys_entry, getKeys]
      tauto
    · simp [set, hk, getKeys, ih]
      tauto

theorem wellFormed_entry {k v : String} {sub : Option Gen} {rest : Gen} (hk : KeyOk k)
    (hv : ValueOk v) (hb : sub = none → v.data.getLast? ≠ some '{')
    (hs : ∀ s, sub = some s → s.WellFormed) (hnk : k ∉ rest.getKeys) (hr : rest.WellFormed) :
    (entry k v sub rest).WellFormed := by
  cases sub with
  | none => exact ⟨hk, hv, hb rfl, hnk, hr⟩
  | some s => exact ⟨hk, hv, hs s rfl, hnk, hr⟩

/-- Assigning a well-formed entry keeps the tree well-formed. -/
theorem wellFormed_set {g : Gen} {k v : String} {sub : Option Gen} (hg : g.WellFormed)
    (hk : KeyOk k) (hv : ValueOk v) (hb : sub = none → v.data.getLast? ≠ some '{')
    (hs : ∀ s, sub = some s → s.WellFormed) : (g.set k v sub).WellFormed := by
  induction g with
  | nil => exact wellFormed_entry hk hv hb hs (by simp [getKeys]) trivial
  | leaf k0 v0 r ih =>
    obtain ⟨hk0, hv0, hb0, hn0, hr⟩ := hg
    by_cases h : k0 = k
    · subst h
      simp only [set, if_true]
      exact wellFormed_entry hk hv hb hs hn0 hr
    · simp only [set, h, if_false]
      refine ⟨hk0, hv0, hb0, ?_, ih hr⟩
      rw [mem_getKeys_set]
      exact fun hm => hm.elim hn0 h
  | node k0 v0 s0 r _ ih =>
    obtain ⟨hk0, hv0, hs0, hn0, hr⟩ := hg
    by_cases h : k0 = k
    · subst h
      simp only [set, if_true]
      exact wellFormed_entry hk hv hb hs hn0 hr
    · simp only [set, h, if_false]
      refine ⟨hk0, hv0, hs0, ?_, ih hr⟩
      rw [mem_getKeys_set]
      exact fun hm => hm.elim hn0 h

/-- The parser builds well-formed trees. -/
theorem parseLines_wellFormed (ls : List (List Char)) :
    ∀ (cur : Gen) (stack : List (Gen × String × String)) (t : Gen),
      (∀ l ∈ ls, '\n' ∉ l) → cur.WellFormed →
      (∀ f ∈ stack, f.1.WellFormed ∧ KeyOk f.2.1 ∧ ValueOk f.2.2) →
      parseLines ls cur stack = some t → t.WellFormed := by
  induction ls with
  | nil =>
    intro cur stack t _ hc _ h
    cases stack with
    | nil =>
      simp only [parseLines, Option.some.injEq] at h
      exact h ▸ hc
    | cons f stack => simp [parseLines] at h
  | cons l ls ih =>
    intro cur stack t hnl hc hst h
    have hl : '\n' ∉ l := hnl l (List.mem_cons_self _ _)
    have hls : ∀ x ∈ ls, '\n' ∉ x := fun x hx => hnl x (List.mem_cons_of_mem _ hx)
    cases hp : parseLine l with
    | blank =>
      rw [parseLines_blank _ _ _ hp] at h
      exact ih cur stack t hls hc hst h
    | close =>
      cases stack with
      | nil => simp [parseLines_stray _ _ hp] at h
      | cons f stack =>
        obtain ⟨parent, k, v⟩ := f
        rw [parseLines_close _ _ _ _ _ _ hp] at h
        obtain ⟨hpw, hk, hv⟩ := hst (parent, k, v) (List.mem_cons_self _ _)
        refine ih _ stack t hls (wellFormed_set hpw hk hv (fun hf => by simp at hf) ?_)
          (fun f hf => hst f (List.mem_cons_of_mem _ hf)) h
        intro s hs
        rw [← Option.some.inj hs]
        exact hc
    | entry k v opens =>
      obtain ⟨hk, hv, hb⟩ := parseLine_ok hl hp
      cases opens with
      | false =>
        rw [parseLines_leaf _ _ _ hp] at h
        exact ih _ stack t hls (wellFormed_set hc hk hv (fun _ => hb rfl)
          (fun s hs => by simp at hs)) hst h
      | true =>
        rw [parseLines_open _ _ _ hp] at h
        refine ih nil _ t hls trivial ?_ h
        intro f hf
        rcases List.mem_cons.1 hf with rfl | hf
        · exact ⟨hc, hk, hv⟩
        · exact hst f hf

theorem consume_wellFormed {text : String} {t : Gen} (h : consume nil text = some t) :
    t.WellFormed :=
  parseLines_wellFormed _ nil [] t (splitLines_no_newline _) trivial (by simp) h

end Gen

/-! ## Gen: claims -/

/-- C12 (Gen round-trip). For every tree `t` that `consume` builds in a
fresh `Gen` from a text, parsing `toString(t)` into a fresh `Gen` succeeds
and yields `t` again: the same keys with the same values and the same nested
trees. -/
theorem gen_round_trip (text : String) (t : Gen) (h : Gen.consume Gen.nil text = some t) :
    Gen.consume Gen.nil (Gen.toString t) = some t :=
  Gen.consume_toString_of_wellFormed (Gen.consume_wellFormed h)

/-- Witness of C12: a text with a tag, a key with a value and a nested
tree. -/
theorem gen_round_trip_witness :
    Gen.consume Gen.nil
        (Gen.toString (Gen.node "Window" "" (Gen.leaf "resizable" "" (Gen.leaf "width" "800"
          Gen.nil)) (Gen.leaf "title" "Main Window" Gen.nil))) =
      some (Gen.node "Window" "" (Gen.leaf "resizable" "" (Gen.leaf "width" "800" Gen.nil))
        (Gen.leaf "title" "Main Window" Gen.nil)) :=
  gen_round_trip "Window\x7b\n  resizable\n  width:800\n\x7d\ntitle: Main Window"
    (Gen.node "Window" "" (Gen.leaf "resizable" "" (Gen.leaf "width" "800" Gen.nil))
      (Gen.leaf "title" "Main Window" Gen.nil)) (by decide)

/-- C13 (Gen fallback law). For every tree and every key absent from it,
`getString`, `getInt`, `getDouble` and `getBool` return exactly the fallback
they are given, `getSubValues` returns null, and each of them leaves the
tree as it was, so the key is still absent. -/
theorem gen_fallback_law {D : Type} (parseDouble : String → Option D) (g : Gen) (id : String)
    (habsent : (g.getPresent id).1 = false) (fs : String) (fi : Int) (fd : D) (fb : Bool) :
    g.getString id fs = (fs, g) ∧ g.getInt id fi = (fi, g) ∧
      g.getDouble parseDouble id fd = (fd, g) ∧ g.getBool id fb = (fb, g) ∧
      g.getSubValues id = (none, g) ∧ g.getPresent id = (false, g) := by
  have hf : g.find id = none := by
    simpa [Gen.getPresent] using habsent
  simp [Gen.getString, Gen.getInt, Gen.getDouble, Gen.getBool, Gen.getSubValues, Gen.getPresent,
    hf]

/-- Witness of C13: the key `"b"` in a tree that only has the key `"a"`. -/
theorem gen_fallback_law_witness :
    (Gen.leaf "a" "1" Gen.nil).getString "b" "x" = ("x", Gen.leaf "a" "1" Gen.nil) ∧
      (Gen.leaf "a" "1" Gen.nil).getInt "b" 5 = (5, Gen.leaf "a" "1" Gen.nil) ∧
      (Gen.leaf "a" "1" Gen.nil).getDouble String.toInt? "b" 7 =
        (7, Gen.leaf "a" "1" Gen.nil) ∧
      (Gen.leaf "a" "1" Gen.nil).getBool "b" true = (true, Gen.leaf "a" "1" Gen.nil) ∧
      (Gen.leaf "a" "1" Gen.nil).getSubValues "b" = (none, Gen.leaf "a" "1" Gen.nil) ∧
      (Gen.leaf "a" "1" Gen.nil).getPresent "b" = (false, Gen.leaf "a" "1" Gen.nil) :=
  gen_fallback_law String.toInt? (Gen.leaf "a" "1" Gen.nil) "b" (by decide) "x" 5 7 true

end GRAE
